import Mathlib

/-! # mcp-ipcalc-go: CIDR arithmetic of the `ipcalc` tool

A shallow embedding of `main.go` (`getIPInfo`, `getNetmask`, `wildcardMask`)
together with the parts of the Go standard library these functions call
(`net.CIDRMask`, `net.IPMask.Size`, `net.IP.String`, `net.IP.Mask`, the `fmt`
verbs `%d`, `%s`, `%02X`, `%.0f`, `strconv.Itoa`, `strings.Join`).

Conventions of the embedding:
* a Go `byte` is a `Nat` below 256 and every byte operation reduces modulo 256;
* a Go `string` holding ASCII text is a Lean `String`;
* a Go run-time panic (index or slice out of range) is `Except.error`;
* a Go result pair `(*mcp.CallToolResult, error)` is a pair of options.
-/

namespace IPCalc

/-! ## Run-time model -/

/-- Run-time panics of the Go code that the embedding tracks. -/
inductive RuntimeError where
  | indexOutOfRange (index len : Nat)
  | sliceBoundsOutOfRange (low high len : Nat)
  | interfaceConversion
  deriving DecidableEq, Repr

/-- The text content carried by `mcp.NewToolResultText`. -/
structure CallToolResult where
  text : String
  deriving DecidableEq, Repr

/-- A Go `error` value built by `errors.New`. -/
structure GoError where
  msg : String
  deriving DecidableEq, Repr

/-- The Go return pair `(*mcp.CallToolResult, error)`; `none` is `nil`. -/
abbrev ToolReturn := Option CallToolResult × Option GoError

/-- Indexing `xs[i]` of a Go slice: panics when `i` is out of range. -/
def index (xs : List Nat) (i : Nat) : Except RuntimeError Nat :=
  match xs.get? i with
  | some x => Except.ok x
  | none => Except.error (RuntimeError.indexOutOfRange i xs.length)

/-- Slicing `s[lo:hi]` of a Go string: panics unless `lo <= hi <= len(s)`. -/
def sliceString (s : String) (lo hi : Nat) : Except RuntimeError String :=
  if lo ≤ hi ∧ hi ≤ s.length then
    Except.ok (String.mk ((s.data.drop lo).take (hi - lo)))
  else
    Except.error (RuntimeError.sliceBoundsOutOfRange lo hi s.length)

/-! ## Formatting verbs -/

/-- The verb `%d` of `fmt` and `strconv.Itoa` on a non-negative integer. -/
def fmtD (n : Nat) : String := Nat.repr n

/-- Upper-case hexadecimal digit of a value below 16 (`"0123456789ABCDEF"[n]`). -/
def upperHexDigit (n : Nat) : Char :=
  if n < 10 then Char.ofNat (48 + n) else Char.ofNat (55 + n)

/-- Lower-case hexadecimal digit of a value below 16 (`"0123456789abcdef"[n]`). -/
def lowerHexDigit (n : Nat) : Char :=
  if n < 10 then Char.ofNat (48 + n) else Char.ofNat (87 + n)

/-- The verb `%02X` of `fmt` on a byte: two upper-case hexadecimal digits. -/
def fmt02X (b : Nat) : String :=
  String.mk [upperHexDigit (b / 16 % 16), upperHexDigit (b % 16)]

/-- Go `strings.Join`. -/
def join (parts : List String) (sep : String) : String :=
  match parts with
  | [] => ""
  | p :: rest => rest.foldl (fun acc q => acc ++ sep ++ q) p

/-! ## IEEE-754 binary64 on integer values

`getIPInfo` converts a `uint64` to `float64`, subtracts 2, takes the maximum
with 0 and prints with `%.0f`.  Every value involved is an integer, so the
embedding represents a `float64` by the integer it denotes and makes the
rounding of each operation explicit. -/

/-- Round a natural number to the nearest integer that a binary64 significand
of 53 bits can hold, ties to even. -/
def roundNat53 (n : Nat) : Nat :=
  if n < 2 ^ 53 then n
  else
    let e := Nat.log2 n - 52
    let q := n / 2 ^ e
    let r := n % 2 ^ e
    let half := 2 ^ (e - 1)
    if r > half ∨ (r = half ∧ q % 2 = 1) then (q + 1) * 2 ^ e else q * 2 ^ e

/-- Round an integer to the nearest binary64 value (sign-symmetric). -/
def roundFloat64 (z : Int) : Int :=
  if z < 0 then - (roundNat53 z.natAbs : Int) else (roundNat53 z.natAbs : Int)

/-- The conversion `float64(x)` of a `uint64`. -/
def float64OfUint64 (x : Nat) : Int := roundFloat64 (x : Int)

/-- The subtraction `x - y` of two integer-valued `float64`. -/
def float64Sub (x y : Int) : Int := roundFloat64 (x - y)

/-- The builtin `max` on two integer-valued `float64`; no NaN arises from
integers, and a difference of equal values is `+0`, printed as `0`. -/
def float64Max (x y : Int) : Int := if x < y then y else x

/-- The verb `%.0f` of `fmt` on an integer-valued `float64`. -/
def fmtF0 (v : Int) : String :=
  if v < 0 then "-" ++ Nat.repr v.natAbs else Nat.repr v.natAbs

/-- The shift `uint64(1) << k` on 64-bit unsigned integers. -/
def shl64 (x k : Nat) : Nat := (x <<< k) % 2 ^ 64

/-! ## Package `net` -/

/-- Go `net.IP`: a slice of bytes, of length 4 or 16 when well-formed. -/
abbrev IP := List Nat

/-- Go `net.IPMask`: a slice of bytes. -/
abbrev IPMask := List Nat

/-- Go `net.IPNet`: a network address and its mask. -/
structure IPNet where
  IP : IPCalc.IP
  Mask : IPCalc.IPMask
  deriving DecidableEq, Repr

/-- Byte `i` of `net.CIDRMask`: `0xff` while at least 8 ones remain, else
`^byte(0xff >> n)` once and zero afterwards.  Returns the bytes from index
`l - count` on, given the number `n` of ones still to place. -/
def cidrMaskLoop : Nat → Nat → List Nat
  | 0, _ => []
  | count + 1, n =>
    if n ≥ 8 then 0xff :: cidrMaskLoop count (n - 8)
    else (((0xff >>> n) ^^^ 0xff) % 256) :: cidrMaskLoop count 0

/-- Go `net.CIDRMask(ones, bits)`; the `nil` result is the empty list. -/
def CIDRMask (ones bits : Nat) : IPMask :=
  if bits ≠ 8 * 4 ∧ bits ≠ 8 * 16 then []
  else if ones > bits then []
  else cidrMaskLoop (bits / 8) ones

/-- The inner loop of `simpleMaskLength`: `for v&0x80 != 0 { n++; v <<= 1 }`
on a byte `v`; returns the final `(v, n)`.  Eight rounds exhaust a byte. -/
def leadingOnesLoop : Nat → Nat → Nat → Nat × Nat
  | 0, v, n => (v, n)
  | fuel + 1, v, n =>
    if v &&& 0x80 ≠ 0 then leadingOnesLoop fuel ((v <<< 1) % 256) (n + 1) else (v, n)

/-- Go `simpleMaskLength` from a given position with `n` ones counted so far;
`none` is the result `-1`. -/
def simpleMaskLengthFrom : List Nat → Nat → Option Nat
  | [], n => some n
  | v :: rest, n =>
    if v = 0xff then simpleMaskLengthFrom rest (n + 8)
    else
      let r := leadingOnesLoop 8 v n
      if r.1 ≠ 0 then none
      else if rest.all (fun b => decide (b = 0)) then some r.2 else none

/-- Go `simpleMaskLength`. -/
def simpleMaskLength (mask : IPMask) : Option Nat := simpleMaskLengthFrom mask 0

/-- Go `net.IPMask.Size`: `(ones, bits)`, or `(0, 0)` for a non-canonical mask. -/
def IPMask.Size (m : IPMask) : Nat × Nat :=
  match simpleMaskLength m with
  | none => (0, 0)
  | some ones => (ones, m.length * 8)

/-- The 12-byte prefix `v4InV6Prefix` of an IPv4-mapped IPv6 address. -/
def v4InV6Prefix : List Nat := [0, 0, 0, 0, 0, 0, 0, 0, 0, 0, 0xff, 0xff]

/-- Go `net.IP.To4`; the `nil` result is the empty list. -/
def IP.To4 (ip : IP) : IP :=
  if ip.length = 4 then ip
  else if ip.length = 16 ∧ ip.take 12 = v4InV6Prefix then ip.drop 12
  else []

/-- Go `net.IP.Mask`; the `nil` result is the empty list. -/
def IP.Mask (ip : IP) (mask : IPMask) : IP :=
  let mask := if mask.length = 16 ∧ ip.length = 4 ∧ (mask.take 12).all (fun b => decide (b = 0xff))
    then mask.drop 12 else mask
  let ip := if mask.length = 4 ∧ ip.length = 16 ∧ ip.take 12 = v4InV6Prefix
    then ip.drop 12 else ip
  if ip.length ≠ mask.length then []
  else List.zipWith (fun a m => a &&& m) ip mask

/-- Go `hexString` of package `net`: two lower-case digits per byte. -/
def hexString (b : List Nat) : String :=
  String.mk (b.flatMap (fun tn => [lowerHexDigit (tn / 16 % 16), lowerHexDigit (tn % 16)]))

/-- Dotted-decimal rendering of IPv4 bytes (`netip.Addr.string4`). -/
def string4 (p4 : List Nat) : String :=
  join (p4.map fmtD) "."

/-- The eight 16-bit groups of a 16-byte address (`v6u16`). -/
def v6groups : List Nat → List Nat
  | hi :: lo :: rest => (hi * 256 + lo) :: v6groups rest
  | _ => []

/-- Number of leading zero groups of a list. -/
def zeroRun : List Nat → Nat
  | 0 :: rest => zeroRun rest + 1
  | _ => 0

/-- First loop of `appendTo6`: the longest run of at least two zero groups,
the earliest one on ties, as `(zeroStart, zeroEnd)`; `(255, 255)` when absent.
`i` is the index of the head of `gs`. -/
def longestZeroRun : List Nat → Nat → Nat × Nat → Nat × Nat
  | [], _, best => best
  | g :: rest, i, best =>
    let l := zeroRun (g :: rest)
    let best := if l ≥ 2 ∧ l > best.2 - best.1 then (i, i + l) else best
    longestZeroRun rest (i + 1) best

/-- Go `appendHex` of package `netip`: lower-case, no leading zeros. -/
def appendHex (x : Nat) : String :=
  String.mk ((if x ≥ 0x1000 then [lowerHexDigit (x / 4096 % 16)] else [])
    ++ (if x ≥ 0x100 then [lowerHexDigit (x / 256 % 16)] else [])
    ++ (if x ≥ 0x10 then [lowerHexDigit (x / 16 % 16)] else [])
    ++ [lowerHexDigit (x % 16)])

/-- Second loop of `appendTo6`, from group index `i` with `fuel` rounds left. -/
def appendTo6Loop (gs : List Nat) (zeroStart zeroEnd : Nat) : Nat → Nat → String → String
  | 0, _, ret => ret
  | fuel + 1, i, ret =>
    if i ≥ 8 then ret
    else if i = zeroStart then
      let ret := ret ++ "::"
      if zeroEnd ≥ 8 then ret
      else appendTo6Loop gs zeroStart zeroEnd fuel (zeroEnd + 1) (ret ++ appendHex (gs.getD zeroEnd 0))
    else
      let ret := if i > 0 then ret ++ ":" else ret
      appendTo6Loop gs zeroStart zeroEnd fuel (i + 1) (ret ++ appendHex (gs.getD i 0))

/-- Rendering of a 16-byte address that is not IPv4-mapped (`netip.Addr.string6`). -/
def string6 (ip : List Nat) : String :=
  let gs := v6groups ip
  let z := longestZeroRun gs 0 (255, 255)
  appendTo6Loop gs z.1 z.2 8 0 ""

/-- Go `net.IP.String`, which the verb `%s` calls on a `net.IP`. -/
def IP.String (ip : IP) : String :=
  if ip.length = 0 then "<nil>"
  else if ip.length ≠ 4 ∧ ip.length ≠ 16 then "?" ++ hexString ip
  else if (IP.To4 ip).length = 4 then string4 (IP.To4 ip)
  else string6 ip

/-- The result of `net.ParseCIDR` on the text `a.b.c.d/p` of an IPv4 address
`addr = [a, b, c, d]` and a prefix length `p <= 32`: the address in 16-byte
form, and the network `addr.Mask(m)` with `m = CIDRMask(p, 32)`. -/
def parsedCIDR4 (addr : List Nat) (p : Nat) : IP × IPNet :=
  let m := CIDRMask p 32
  (v4InV6Prefix ++ addr, { IP := IP.Mask (v4InV6Prefix ++ addr) m, Mask := m })

/-! ## `main.go` -/

/-- The loop `for i := range broadcast { broadcast[i] |= ^mask[i] }` of
`getIPInfo`, on the bytes of `broadcast` from index `i` on. -/
def broadcastLoop (mask : IPMask) : List Nat → Nat → Except RuntimeError (List Nat)
  | [], _ => pure []
  | b :: rest, i => do
    let m ← index mask i
    let tail ← broadcastLoop mask rest (i + 1)
    pure (((b ||| ((m ^^^ 0xff) % 256)) % 256) :: tail)

/-- The host count of `getIPInfo`: `var totalHosts float64`, set to
`max(float64(uint64(1)<<uint64(bits-ones))-2, 0)` when `bits == 32`. -/
def totalHosts (ones bits : Nat) : Int :=
  if bits = 32 then
    float64Max (float64Sub (float64OfUint64 (shl64 1 (bits - ones))) 2) 0
  else 0

/-- Go `getIPInfo(ip, ipNet)`. -/
def getIPInfo (ip : IP) (ipNet : IPNet) : Except RuntimeError ToolReturn := do
  let mask := ipNet.Mask
  let ones := (IPMask.Size mask).1
  let bits := (IPMask.Size mask).2
  let network := ipNet.IP
  let result := "IP Address: " ++ IP.String ip ++ "\n"
  let result := result ++ ("Network: " ++ IP.String network ++ "/" ++ fmtD ones ++ "\n")
  let m0 ← index mask 0
  let m1 ← index mask 1
  let m2 ← index mask 2
  let m3 ← index mask 3
  let maskStr := fmtD m0 ++ "." ++ fmtD m1 ++ "." ++ fmtD m2 ++ "." ++ fmtD m3
  let result := result ++ ("Netmask: " ++ maskStr ++ "\n")
  if ones = bits then
    let result := result ++ ("Prefix: /" ++ fmtD ones ++ "\n")
    let result := result ++ "Hosts/Net: 1\n"
    pure (some (CallToolResult.mk result), none)
  else
    let broadcast ← broadcastLoop mask network 0
    let result := result ++ ("Broadcast: " ++ IP.String broadcast ++ "\n")
    let result := result ++ ("Prefix: /" ++ fmtD ones ++ "\n")
    let result := result ++ ("Usable Hosts: " ++ fmtF0 (totalHosts ones bits) ++ "\n")
    pure (some (CallToolResult.mk result), none)

/-- The loop `for range ones { binStr += "1" }` of `getNetmask`. -/
def onesLoop : Nat → String → String
  | 0, binStr => binStr
  | n + 1, binStr => onesLoop n (binStr ++ "1")

/-- The loop `for i := ones; i < bits; i++ { binStr += "0" }` of `getNetmask`,
from index `i` with `fuel` rounds left. -/
def zerosLoop (bits : Nat) : Nat → Nat → String → String
  | 0, _, binStr => binStr
  | fuel + 1, i, binStr =>
    if i < bits then zerosLoop bits fuel (i + 1) (binStr ++ "0") else binStr

/-- The loop `for i := 0; i < bits; i += 8` of `getNetmask` that cuts `binStr`
into chunks, from index `i` with `fuel` rounds left. -/
def chunkLoop (binStr : String) (bits : Nat) :
    Nat → Nat → List String → Except RuntimeError (List String)
  | 0, _, binChunks => pure binChunks
  | fuel + 1, i, binChunks =>
    if i < bits then do
      let stop := min (i + 8) binStr.length
      let chunk ← sliceString binStr i stop
      chunkLoop binStr bits fuel (i + 8) (binChunks ++ [chunk])
    else pure binChunks

/-- Go `wildcardMask(mask)`. -/
def wildcardMask (mask : IPMask) : List String :=
  mask.map (fun b => fmtD (((b ^^^ 0xff) % 256) &&& 0xff))

/-- Go `getNetmask(ipNet)`. -/
def getNetmask (ipNet : IPNet) : Except RuntimeError ToolReturn := do
  let mask := ipNet.Mask
  let ones := (IPMask.Size mask).1
  let bits := (IPMask.Size mask).2
  let binStr := onesLoop ones ""
  let binStr := zerosLoop bits bits ones binStr
  let binChunks ← chunkLoop binStr bits bits 0 []
  let decimals := mask.map fmtD
  let hexes := mask.map fmt02X
  let result := "Address: " ++ IP.String ipNet.IP ++ "\n"
  let result := result ++ ("Netmask: " ++ join decimals "." ++ " = " ++ join binChunks "." ++ "\n")
  let result := result ++ ("Wildcard: " ++ join (wildcardMask mask) "." ++ "\n")
  let result := result ++ ("Hex netmask: 0x" ++ join hexes "" ++ "\n")
  let result := result ++ ("Prefix: /" ++ fmtD ones ++ "\n")
  pure (some (CallToolResult.mk result), none)

/-! ## Parsing: `net.ParseCIDR` and `netip.ParseAddr`

Go reads a string byte by byte; the embedding reads the characters of a Lean
`String`.  Every byte the parsers act on is ASCII, and a character outside
ASCII is rejected exactly where Go rejects its first byte. -/

/-- Go `dtoi` of package `net` from character `i` on, with `n` read so far:
the number and the count of characters consumed; `none` is `ok == false`
(no digit, or the number reaches `big = 0xFFFFFF`). -/
def dtoiLoop : List Char → Nat → Nat → Option (Nat × Nat)
  | [], n, i => if i = 0 then none else some (n, i)
  | c :: rest, n, i =>
    if '0' ≤ c ∧ c ≤ '9' then
      if n * 10 + (c.toNat - 48) ≥ 0xFFFFFF then none
      else dtoiLoop rest (n * 10 + (c.toNat - 48)) (i + 1)
    else if i = 0 then none else some (n, i)

/-- Go `dtoi`. -/
def dtoi (s : List Char) : Option (Nat × Nat) := dtoiLoop s 0 0

/-- The loop of `netip.parseIPv4Fields` on the characters still to read.
`prev` is `s[i-1]` (`none` when `i == 0`), the number of stored fields is
`pos`, and `rest = []` after a dot is `i == len(s)-1`. -/
def parseIPv4Loop : Option Char → List Char → Nat → Nat → List Nat → Option (List Nat)
  | _, [], val, _, fields =>
    if fields.length < 3 then none else some (fields ++ [val % 256])
  | prev, c :: rest, val, digLen, fields =>
    if '0' ≤ c ∧ c ≤ '9' then
      if digLen = 1 ∧ val = 0 then none
      else if val * 10 + (c.toNat - 48) > 255 then none
      else parseIPv4Loop (some c) rest (val * 10 + (c.toNat - 48)) (digLen + 1) fields
    else if c = '.' then
      if prev = none ∨ rest = [] ∨ prev = some '.' then none
      else if fields.length = 3 then none
      else parseIPv4Loop (some c) rest 0 0 (fields ++ [val % 256])
    else none

/-- Go `netip.parseIPv4`: the four fields of a dotted-quad text. -/
def parseIPv4 (s : List Char) : Option (List Nat) := parseIPv4Loop none s 0 0 []

/-- Value of a hexadecimal digit of either case, as `parseIPv6` reads it. -/
def hexValue (c : Char) : Option Nat :=
  if '0' ≤ c ∧ c ≤ '9' then some (c.toNat - 48)
  else if 'a' ≤ c ∧ c ≤ 'f' then some (c.toNat - 97 + 10)
  else if 'A' ≤ c ∧ c ≤ 'F' then some (c.toNat - 65 + 10)
  else none

/-- The inner loop of `parseIPv6` reading one hexadecimal group: the number
`off` of digits, the value `acc` and the characters left; `none` when a group
has more than 4 digits or overflows 16 bits. -/
def hexFieldLoop : List Char → Nat → Nat → Option (Nat × Nat × List Char)
  | [], off, acc => some (off, acc, [])
  | c :: rest, off, acc =>
    match hexValue c with
    | none => some (off, acc, c :: rest)
    | some v =>
      if off > 3 then none
      else if ((acc <<< 4) + v) % 2 ^ 32 > 0xFFFF then none
      else hexFieldLoop rest (off + 1) (((acc <<< 4) + v) % 2 ^ 32)

/-- Store the bytes `bs` in `ip` from index `i` on. -/
def setBytes (ip : List Nat) (i : Nat) : List Nat → List Nat
  | [] => ip
  | b :: bs => setBytes (ip.set i b) (i + 1) bs

/-- The main loop `for i < 16` of `parseIPv6`: the state `(s, i, ip, ellipsis)`
after the loop, `none` on a parse error.  Every round that continues adds 2
to `i`, so 8 rounds suffice. -/
def parseIPv6Loop : Nat → List Char → Nat → List Nat → Option Nat →
    Option (List Char × Nat × List Nat × Option Nat)
  | 0, s, i, ip, ellipsis => some (s, i, ip, ellipsis)
  | fuel + 1, s, i, ip, ellipsis =>
    if ¬ i < 16 then some (s, i, ip, ellipsis)
    else
      match hexFieldLoop s 0 0 with
      | none => none
      | some (off, acc, rest) =>
        if off = 0 then none
        else if rest.head? = some '.' then
          if ellipsis = none ∧ i ≠ 12 then none
          else if i + 4 > 16 then none
          else
            match parseIPv4 s with
            | none => none
            | some fields => some ([], i + 4, setBytes ip i fields, ellipsis)
        else
          let ip2 := (ip.set i (acc / 256 % 256)).set (i + 1) (acc % 256)
          match rest with
          | [] => some ([], i + 2, ip2, ellipsis)
          | c :: rest1 =>
            if c ≠ ':' then none
            else
              match rest1 with
              | [] => none
              | c2 :: rest2 =>
                if c2 = ':' then
                  if ellipsis ≠ none then none
                  else
                    match rest2 with
                    | [] => some ([], i + 2, ip2, some (i + 2))
                    | _ :: _ => parseIPv6Loop fuel rest2 (i + 2) ip2 (some (i + 2))
                else parseIPv6Loop fuel (c2 :: rest2) (i + 2) ip2 ellipsis

/-- Split a text at its first `%` (`IndexByteString(s, '%')`). -/
def splitZone : List Char → List Char × Option (List Char)
  | [] => ([], none)
  | c :: rest =>
    if c = '%' then ([], some rest)
    else ((c :: (splitZone rest).1), (splitZone rest).2)

/-- Go `netip.parseIPv6`: the 16 bytes and the zone. -/
def parseIPv6 (input : List Char) : Option (List Nat × List Char) :=
  let s := (splitZone input).1
  let zoneOpt := (splitZone input).2
  if zoneOpt = some [] then none
  else
    let zone := zoneOpt.getD []
    let lead := decide (s.take 2 = [':', ':'])
    let s1 := if lead then s.drop 2 else s
    let ellipsis : Option Nat := if lead then some 0 else none
    if lead ∧ s1 = [] then some (List.replicate 16 0, zone)
    else
      match parseIPv6Loop 8 s1 0 (List.replicate 16 0) ellipsis with
      | none => none
      | some (s2, i, ip, ell) =>
        if s2 ≠ [] then none
        else if i < 16 then
          match ell with
          | none => none
          | some e =>
            some (ip.take e ++ List.replicate (16 - i) 0 ++ (ip.drop e).take (i - e), zone)
        else if ell ≠ none then none
        else some (ip, zone)

/-- Go `netip.Addr`, as far as `ParseCIDR` uses it: whether it is an IPv4
address (`z4`), its 16-byte form (`As16`) and its zone. -/
structure Addr where
  is4 : Bool
  addr16 : List Nat
  zone : List Char
  deriving DecidableEq, Repr

/-- Go `netip.Addr.BitLen`. -/
def Addr.BitLen (a : Addr) : Nat := if a.is4 then 32 else 128

/-- The first of the characters `.`, `:` and `%` in a text, which decides how
`netip.ParseAddr` reads it. -/
def firstSeparator : List Char → Option Char
  | [] => none
  | c :: rest => if c = '.' ∨ c = ':' ∨ c = '%' then some c else firstSeparator rest

/-- Go `netip.ParseAddr`. -/
def ParseAddr (s : List Char) : Option Addr :=
  if firstSeparator s = some '.' then
    match parseIPv4 s with
    | none => none
    | some fields => some { is4 := true, addr16 := v4InV6Prefix ++ fields, zone := [] }
  else if firstSeparator s = some ':' then
    match parseIPv6 s with
    | none => none
    | some r => some { is4 := false, addr16 := r.1, zone := r.2 }
  else none

/-- Split a text at its first `/` (`IndexByteString(s, '/')`). -/
def splitSlash : List Char → Option (List Char × List Char)
  | [] => none
  | c :: rest =>
    if c = '/' then some ([], rest)
    else
      match splitSlash rest with
      | none => none
      | some r => some (c :: r.1, r.2)

/-- Go `net.ParseCIDR`; `none` is a non-nil error. -/
def ParseCIDR (s : String) : Option (IP × IPNet) :=
  match splitSlash s.data with
  | none => none
  | some (addr, mask) =>
    match ParseAddr addr with
    | none => none
    | some ipAddr =>
      if ipAddr.zone ≠ [] then none
      else
        match dtoi mask with
        | none => none
        | some (n, i) =>
          if i ≠ mask.length ∨ n > ipAddr.BitLen then none
          else
            some (ipAddr.addr16,
              { IP := IP.Mask ipAddr.addr16 (CIDRMask n ipAddr.BitLen),
                Mask := CIDRMask n ipAddr.BitLen })

/-! ## The tool handler of `main` -/

/-- A decoded JSON value held in `request.Params.Arguments`. -/
inductive ArgValue where
  | null
  | bool (b : Bool)
  | number (x : Int)
  | string (s : String)
  | array
  | object
  deriving DecidableEq, Repr

/-- The map `request.Params.Arguments`; `none` is an absent key. -/
abbrev Arguments := String → Option ArgValue

/-- The type assertion `v.(string)` on a map entry: panics unless the entry
is present and a string. -/
def assertString : Option ArgValue → Except RuntimeError String
  | some (ArgValue.string s) => Except.ok s
  | _ => Except.error RuntimeError.interfaceConversion

/-- The error message of the handler for an `ip` that does not parse. -/
def invalidFormatMessage : String :=
  "Invalid IP address format. Please use CIDR notation (e.g., 192.168.1.0/24)"

/-- The handler that `main` registers for the tool `ipcalc`. -/
def ipcalcHandler (arguments : Arguments) : Except RuntimeError ToolReturn := do
  let op ← assertString (arguments "operation")
  let ipCIDR ← assertString (arguments "ip")
  match ParseCIDR ipCIDR with
  | none => pure (none, some (GoError.mk invalidFormatMessage))
  | some (ip, ipNet) =>
    if op = "info" then getIPInfo ip ipNet
    else if op = "netmask" then getNetmask ipNet
    else pure (none, some (GoError.mk "Unknown operation"))

/-- The arguments of a request that gives `operation` and `ip` as strings. -/
def request (op ipCIDR : String) : Arguments :=
  fun key =>
    if key = "operation" then some (ArgValue.string op)
    else if key = "ip" then some (ArgValue.string ipCIDR)
    else none

/-! ## Reading a report

The functions below are the observations the statements use: the text of a
successful return, its lines, substring search (`strings.Contains`, as the
tests of the repository use it) and the decoding of numerals. -/

/-- The report text of a call that returned `(result, nil)` without panic. -/
def reportText (r : Except RuntimeError ToolReturn) : Option String :=
  match r with
  | Except.ok (some res, none) => some res.text
  | _ => none

/-- Split a character list at every newline (`strings.Split(text, "\n")`). -/
def splitLines : List Char → List (List Char)
  | [] => [[]]
  | c :: cs =>
    if c = '\n' then [] :: splitLines cs
    else
      match splitLines cs with
      | [] => [[c]]
      | l :: ls => (c :: l) :: ls

/-- The lines of a report; a text ending in a newline has a last empty line. -/
def reportLines (text : String) : List String :=
  (splitLines text.data).map String.mk

/-- Go `strings.Contains(text, pat)`. -/
def contains (text pat : String) : Prop := pat.data <:+: text.data

instance (text pat : String) : Decidable (contains text pat) := by
  unfold contains; infer_instance

/-- Some line of the report starts with `pfx`. -/
def hasLineWithPrefix (text pfx : String) : Prop :=
  ∃ l ∈ reportLines text, pfx.data <+: l.data

instance (text pfx : String) : Decidable (hasLineWithPrefix text pfx) := by
  unfold hasLineWithPrefix; infer_instance

/-- Value of an upper-case hexadecimal digit character. -/
def digitValue (c : Char) : Option Nat :=
  if '0' ≤ c ∧ c ≤ '9' then some (c.toNat - 48)
  else if 'A' ≤ c ∧ c ≤ 'F' then some (c.toNat - 55)
  else none

/-- Read digits in the given base, most significant first, onto `acc`. -/
def parseDigits (base : Nat) : List Char → Nat → Option Nat
  | [], acc => some acc
  | c :: cs, acc =>
    match digitValue c with
    | some v => if v < base then parseDigits base cs (acc * base + v) else none
    | none => none

/-- Read a non-empty numeral in the given base (2, 10 or 16). -/
def parseNat (base : Nat) (s : String) : Option Nat :=
  if s.data = [] then none else parseDigits base s.data 0

/-- Decode a hexadecimal text two characters at a time into bytes. -/
def decodeHexPairs : List Char → Option (List Nat)
  | [] => some []
  | [_] => none
  | c1 :: c2 :: rest =>
    match parseNat 16 (String.mk [c1, c2]), decodeHexPairs rest with
    | some b, some bs => some (b :: bs)
    | _, _ => none

/-- A list of 4 bytes read as a 32-bit big-endian integer. -/
def beUint32 (b : List Nat) : Nat :=
  b.foldl (fun acc x => acc * 256 + x) 0

/-- Join lines, ending each with a newline. -/
def unlines (ls : List String) : String :=
  ls.foldr (fun l acc => l ++ "\n" ++ acc) ""

/-- The 32 characters `'1'` (`p` times) then `'0'` of the binary netmask. -/
def binDigits (p : Nat) : List Char :=
  List.replicate p '1' ++ List.replicate (32 - p) '0'

/-- Characters `8 * i` to `8 * i + 7` of `binDigits p`. -/
def binChunk (p i : Nat) : String :=
  String.mk (((binDigits p).drop (8 * i)).take 8)

/-- The dotted rendering of a non-empty list of bytes, as characters. -/
def renderFields : List Nat → List Char
  | [] => []
  | [x] => (fmtD x).data
  | x :: y :: rest => (fmtD x).data ++ '.' :: renderFields (y :: rest)

/-- The state of `parseIPv4Loop` is consistent: without a digit in the current
field the value is 0 and the previous character is absent or a dot; with one,
the previous character is a digit and the value has no leading zero. -/
def FieldInv (prev : Option Char) (val digLen : Nat) (fields : List Nat) : Prop :=
  (digLen = 0 → val = 0 ∧ (prev = none ∨ prev = some '.')) ∧
  (digLen ≠ 0 → prev ≠ none ∧ prev ≠ some '.' ∧ val ≤ 255 ∧ (val = 0 → digLen = 1)) ∧
  (prev = none → fields = []) ∧ fields.length ≤ 3 ∧ (∀ b ∈ fields, b < 256)

/-- The digit steps of `parseIPv4Loop` alone, on a text made of digits: the
final `(val, digLen)`, or `none` where the loop rejects or meets a non-digit. -/
def scanDigits : List Char → Nat → Nat → Option (Nat × Nat)
  | [], val, digLen => some (val, digLen)
  | c :: rest, val, digLen =>
    if '0' ≤ c ∧ c ≤ '9' then
      if digLen = 1 ∧ val = 0 then none
      else if val * 10 + (c.toNat - 48) > 255 then none
      else scanDigits rest (val * 10 + (c.toNat - 48)) (digLen + 1)
    else none

/-! # Lemmas -/

/-! ## Lemmas on decimal numerals -/

theorem digitChar_isDigit : ∀ k < 10, (Nat.digitChar k).isDigit = true := by decide

theorem toDigitsCore_isDigit (fuel : Nat) : ∀ (n : Nat) (acc : List Char),
    (∀ c ∈ acc, c.isDigit = true) → ∀ c ∈ Nat.toDigitsCore 10 fuel n acc, c.isDigit = true := by
  induction fuel with
  | zero => intro n acc h; simpa [Nat.toDigitsCore] using h
  | succ fuel ih =>
    intro n acc h
    have hd : (Nat.digitChar (n % 10)).isDigit = true :=
      digitChar_isDigit _ (Nat.mod_lt _ (by decide))
    have hacc : ∀ c ∈ Nat.digitChar (n % 10) :: acc, c.isDigit = true := by
      intro c hc
      rcases List.mem_cons.1 hc with rfl | hc
      · exact hd
      · exact h c hc
    unfold Nat.toDigitsCore
    by_cases h0 : n / 10 = 0
    · simpa [h0] using hacc
    · simpa [h0] using ih (n / 10) _ hacc

theorem fmtD_isDigit (n : Nat) : ∀ c ∈ (fmtD n).data, c.isDigit = true := by
  intro c hc
  have : c ∈ Nat.toDigitsCore 10 (n + 1) n [] := by
    simpa [fmtD, Nat.repr, Nat.toDigits, List.asString] using hc
  exact toDigitsCore_isDigit _ _ _ (by simp) c this

theorem fmtD_not_mem (n : Nat) (c : Char) (hc : c.isDigit = false) : c ∉ (fmtD n).data := by
  intro h
  rw [fmtD_isDigit n c h] at hc
  exact absurd hc (by decide)

/-! ## Lemmas on lines -/

theorem splitLines_ne_nil (cs : List Char) : splitLines cs ≠ [] := by
  cases cs with
  | nil => simp [splitLines]
  | cons c cs =>
    unfold splitLines
    split
    · simp
    · split <;> simp

theorem splitLines_append_newline (l r : List Char) (h : '\n' ∉ l) :
    splitLines (l ++ '\n' :: r) = l :: splitLines r := by
  induction l with
  | nil => simp [splitLines]
  | cons c l ih =>
    have hc : c ≠ '\n' := fun e => h (by simp [e])
    have hl : '\n' ∉ l := fun e => h (by simp [e])
    simp [splitLines, hc, ih hl]

theorem reportLines_unlines (ls : List String) (h : ∀ l ∈ ls, '\n' ∉ l.data) :
    reportLines (unlines ls) = ls ++ [""] := by
  induction ls with
  | nil => rfl
  | cons l ls ih =>
    have h1 : '\n' ∉ l.data := h l (by simp)
    have h2 := ih (fun x hx => h x (by simp [hx]))
    have hd : (unlines (l :: ls)).data = l.data ++ '\n' :: (unlines ls).data := by
      simp [unlines, String.data_append]
    unfold reportLines at h2 ⊢
    rw [hd, splitLines_append_newline _ _ h1]
    simp [h2]

/-! ## Lemmas on masks -/

theorem Size_CIDRMask (p : Nat) (hp : p ≤ 32) : IPMask.Size (CIDRMask p 32) = (p, 32) := by
  interval_cases p <;> rfl

theorem CIDRMask_shape (p : Nat) (hp : p ≤ 32) :
    ∃ m0 m1 m2 m3, CIDRMask p 32 = [m0, m1, m2, m3] ∧
      m0 < 256 ∧ m1 < 256 ∧ m2 < 256 ∧ m3 < 256 := by
  interval_cases p <;> exact ⟨_, _, _, _, rfl, by decide, by decide, by decide, by decide⟩

theorem totalHosts_eq (p : Nat) (hp : p < 32) :
    totalHosts p 32 = ((2 ^ (32 - p) - 2 : Nat) : Int) := by
  interval_cases p <;> rfl

theorem fmtF0_natCast (n : Nat) : fmtF0 (n : Int) = fmtD n := by
  simp [fmtF0, fmtD]

theorem string4_quad (a b c d : Nat) :
    string4 [a, b, c, d] = fmtD a ++ "." ++ fmtD b ++ "." ++ fmtD c ++ "." ++ fmtD d := by
  rfl

theorem IP_String_v4 (a b c d : Nat) : IP.String [a, b, c, d] = string4 [a, b, c, d] := by
  simp [IP.String, IP.To4]

theorem IP_String_v4in6 (a b c d : Nat) :
    IP.String (v4InV6Prefix ++ [a, b, c, d]) = string4 [a, b, c, d] := by
  simp [IP.String, IP.To4, v4InV6Prefix]

theorem parsedCIDR4_fst (a b c d p : Nat) :
    (parsedCIDR4 [a, b, c, d] p).1 = v4InV6Prefix ++ [a, b, c, d] := rfl

theorem parsedCIDR4_snd (a b c d p : Nat) (hp : p ≤ 32) :
    (parsedCIDR4 [a, b, c, d] p).2 =
      { IP := List.zipWith (fun x m => x &&& m) [a, b, c, d] (CIDRMask p 32),
        Mask := CIDRMask p 32 } := by
  obtain ⟨m0, m1, m2, m3, hm, -⟩ := CIDRMask_shape p hp
  simp [parsedCIDR4, hm, IP.Mask, v4InV6Prefix]

/-! ## The reports in closed form -/

theorem getIPInfo_lt (ip : IP) (n0 n1 n2 n3 p : Nat) (hp : p < 32) :
    getIPInfo ip { IP := [n0, n1, n2, n3], Mask := CIDRMask p 32 } =
      Except.ok (some (CallToolResult.mk (unlines [
        "IP Address: " ++ IP.String ip,
        "Network: " ++ string4 [n0, n1, n2, n3] ++ "/" ++ fmtD p,
        "Netmask: " ++ string4 (CIDRMask p 32),
        "Broadcast: " ++ string4 (List.zipWith (fun n m => (n ||| ((m ^^^ 0xff) % 256)) % 256)
          [n0, n1, n2, n3] (CIDRMask p 32)),
        "Prefix: /" ++ fmtD p,
        "Usable Hosts: " ++ fmtD (2 ^ (32 - p) - 2)])), none) := by
  obtain ⟨m0, m1, m2, m3, hm, -⟩ := CIDRMask_shape p (Nat.le_of_lt hp)
  have hs := Size_CIDRMask p (Nat.le_of_lt hp)
  have ht := totalHosts_eq p hp
  rw [hm] at hs
  have hne : p ≠ 32 := Nat.ne_of_lt hp
  simp only [hm]
  simp only [getIPInfo, hs, hne, index, broadcastLoop, IP_String_v4, ht,
    fmtF0_natCast, unlines, bind, Except.bind, pure, Except.pure,
    String.append_assoc, List.get?, if_false, List.foldr, List.zipWith, String.append_empty,
    string4_quad m0 m1 m2 m3]

theorem getIPInfo_32 (ip : IP) (n0 n1 n2 n3 : Nat) :
    getIPInfo ip { IP := [n0, n1, n2, n3], Mask := CIDRMask 32 32 } =
      Except.ok (some (CallToolResult.mk (unlines [
        "IP Address: " ++ IP.String ip,
        "Network: " ++ string4 [n0, n1, n2, n3] ++ "/" ++ fmtD 32,
        "Netmask: " ++ string4 (CIDRMask 32 32),
        "Prefix: /" ++ fmtD 32,
        "Hosts/Net: 1"])), none) := by
  have hm : CIDRMask 32 32 = [255, 255, 255, 255] := rfl
  have hs : IPMask.Size [255, 255, 255, 255] = (32, 32) := rfl
  have hl : "Hosts/Net: 1\n" = "Hosts/Net: 1" ++ "\n" := by decide
  simp only [hm]
  simp only [getIPInfo, hs, index, IP_String_v4, unlines, bind, Except.bind, pure, Except.pure,
    String.append_assoc, List.get?, if_true, List.foldr, String.append_empty,
    string4_quad 255 255 255 255, hl]

theorem binStr_eq (p : Nat) (hp : p ≤ 32) :
    zerosLoop 32 32 p (onesLoop p "") = String.mk (binDigits p) := by
  interval_cases p <;> rfl

theorem chunkLoop_eq (p : Nat) (hp : p ≤ 32) :
    chunkLoop (String.mk (binDigits p)) 32 32 0 [] =
      Except.ok [binChunk p 0, binChunk p 1, binChunk p 2, binChunk p 3] := by
  interval_cases p <;> rfl

theorem getNetmask_eq (network : IP) (p : Nat) (hp : p ≤ 32) :
    getNetmask { IP := network, Mask := CIDRMask p 32 } =
      Except.ok (some (CallToolResult.mk (unlines [
        "Address: " ++ IP.String network,
        "Netmask: " ++ join ((CIDRMask p 32).map fmtD) "." ++ " = "
          ++ join [binChunk p 0, binChunk p 1, binChunk p 2, binChunk p 3] ".",
        "Wildcard: " ++ join (wildcardMask (CIDRMask p 32)) ".",
        "Hex netmask: 0x" ++ join ((CIDRMask p 32).map fmt02X) "",
        "Prefix: /" ++ fmtD p])), none) := by
  have hs := Size_CIDRMask p hp
  simp only [getNetmask, hs, binStr_eq p hp, chunkLoop_eq p hp, unlines, bind, Except.bind,
    pure, Except.pure, String.append_assoc, List.foldr, String.append_empty]

theorem mem_data_append (c : Char) (s t : String) :
    c ∈ (s ++ t).data ↔ c ∈ s.data ∨ c ∈ t.data := by
  simp [String.data_append]

theorem string4_not_mem (a b c d : Nat) (x : Char) (hx : x.isDigit = false) (hdot : x ≠ '.') :
    x ∉ (string4 [a, b, c, d]).data := by
  have hd : x ∉ ".".data := by
    intro h
    have : x = '.' := by simpa using h
    exact hdot this
  simp only [string4_quad, mem_data_append, not_or]
  exact ⟨⟨⟨⟨⟨⟨fmtD_not_mem a x hx, hd⟩, fmtD_not_mem b x hx⟩, hd⟩, fmtD_not_mem c x hx⟩, hd⟩,
    fmtD_not_mem d x hx⟩

theorem info_lines_lt (a b c d p : Nat) (hp : p < 32) :
    ∃ text, getIPInfo (parsedCIDR4 [a, b, c, d] p).1 (parsedCIDR4 [a, b, c, d] p).2
        = Except.ok (some (CallToolResult.mk text), none) ∧
      reportLines text = [
        "IP Address: " ++ string4 [a, b, c, d],
        "Network: " ++ string4 (List.zipWith (fun x m => x &&& m) [a, b, c, d] (CIDRMask p 32))
          ++ "/" ++ fmtD p,
        "Netmask: " ++ string4 (CIDRMask p 32),
        "Broadcast: " ++ string4 (List.zipWith (fun n m => (n ||| ((m ^^^ 0xff) % 256)) % 256)
          (List.zipWith (fun x m => x &&& m) [a, b, c, d] (CIDRMask p 32)) (CIDRMask p 32)),
        "Prefix: /" ++ fmtD p,
        "Usable Hosts: " ++ fmtD (2 ^ (32 - p) - 2),
        ""] := by
  obtain ⟨m0, m1, m2, m3, hm, -⟩ := CIDRMask_shape p (Nat.le_of_lt hp)
  have h := getIPInfo_lt (v4InV6Prefix ++ [a, b, c, d]) (a &&& m0) (b &&& m1) (c &&& m2)
    (d &&& m3) p hp
  rw [parsedCIDR4_fst, parsedCIDR4_snd _ _ _ _ _ (Nat.le_of_lt hp)]
  simp only [hm, List.zipWith, IP_String_v4in6] at h ⊢
  refine ⟨_, h, ?_⟩
  rw [reportLines_unlines]
  · rfl
  · intro l hl
    simp only [List.mem_cons, List.mem_singleton, List.not_mem_nil, or_false] at hl
    rcases hl with rfl | rfl | rfl | rfl | rfl | rfl <;>
      simp [mem_data_append, string4_not_mem, fmtD_not_mem]

theorem info_lines_32 (a b c d : Nat) :
    ∃ text, getIPInfo (parsedCIDR4 [a, b, c, d] 32).1 (parsedCIDR4 [a, b, c, d] 32).2
        = Except.ok (some (CallToolResult.mk text), none) ∧
      reportLines text = [
        "IP Address: " ++ string4 [a, b, c, d],
        "Network: " ++ string4 (List.zipWith (fun x m => x &&& m) [a, b, c, d] (CIDRMask 32 32))
          ++ "/" ++ fmtD 32,
        "Netmask: " ++ string4 (CIDRMask 32 32),
        "Prefix: /" ++ fmtD 32,
        "Hosts/Net: 1",
        ""] := by
  have hm : CIDRMask 32 32 = [255, 255, 255, 255] := rfl
  have h := getIPInfo_32 (v4InV6Prefix ++ [a, b, c, d]) (a &&& 255) (b &&& 255) (c &&& 255)
    (d &&& 255)
  rw [parsedCIDR4_fst, parsedCIDR4_snd _ _ _ _ _ (Nat.le_refl 32)]
  simp only [hm, List.zipWith, IP_String_v4in6] at h ⊢
  refine ⟨_, h, ?_⟩
  rw [reportLines_unlines]
  · rfl
  · intro l hl
    simp only [List.mem_cons, List.mem_singleton, List.not_mem_nil, or_false] at hl
    rcases hl with rfl | rfl | rfl | rfl | rfl <;>
      simp [mem_data_append, string4_not_mem, fmtD_not_mem]

theorem broadcast_byte (n m : Nat) (hn : n < 256) (hm : m < 256) :
    (n ||| ((m ^^^ 0xff) % 256)) % 256 = n ||| (0xFF ^^^ m) := by
  have h1 : m ^^^ 0xff < 256 := Nat.xor_lt_two_pow (n := 8) hm (by decide)
  have h2 : n ||| (m ^^^ 0xff) < 256 := Nat.or_lt_two_pow (n := 8) hn h1
  rw [Nat.mod_eq_of_lt h1, Nat.mod_eq_of_lt h2, Nat.xor_comm]

theorem and_byte (x m : Nat) (hm : m < 256) : x &&& m < 256 :=
  Nat.and_lt_two_pow (n := 8) x hm

/-! ## Lemmas on substrings -/

theorem not_infix_of_not_mem (pat l : List Char) (c : Char) (hc : c ∈ pat) (hl : c ∉ l) :
    ¬ pat <:+: l :=
  fun h => hl (h.subset hc)

theorem prefix_first_line (cs : List Char) : ∀ pat : List Char, '\n' ∉ pat → pat <+: cs →
    ∃ l ls, splitLines cs = l :: ls ∧ pat <+: l := by
  induction cs with
  | nil =>
    intro pat _ hpre
    have : pat = [] := List.prefix_nil.1 hpre
    subst this
    exact ⟨[], [], rfl, List.prefix_refl _⟩
  | cons c cs ih =>
    intro pat hnl hpre
    cases pat with
    | nil =>
      obtain ⟨l, ls, h⟩ := List.exists_cons_of_ne_nil (splitLines_ne_nil (c :: cs))
      exact ⟨l, ls, h, List.nil_prefix⟩
    | cons q pat =>
      obtain ⟨hq, hrest⟩ := List.cons_prefix_cons.1 hpre
      subst hq
      have hq : q ≠ '\n' := fun e => hnl (by simp [e])
      have hpat : '\n' ∉ pat := fun e => hnl (by simp [e])
      obtain ⟨l, ls, hsplit, hl⟩ := ih pat hpat hrest
      refine ⟨q :: l, ls, ?_, List.cons_prefix_cons.2 ⟨rfl, hl⟩⟩
      simp [splitLines, hq, hsplit]

theorem infix_some_line (pat : List Char) (hnl : '\n' ∉ pat) : ∀ cs : List Char,
    pat <:+: cs → ∃ l ∈ splitLines cs, pat <:+: l := by
  intro cs
  induction cs with
  | nil =>
    intro h
    exact ⟨[], by simp [splitLines], h⟩
  | cons c cs ih =>
    intro h
    rcases List.infix_cons_iff.1 h with hpre | hin
    · obtain ⟨l, ls, hsplit, hl⟩ := prefix_first_line (c :: cs) pat hnl hpre
      exact ⟨l, by simp [hsplit], hl.isInfix⟩
    · obtain ⟨l, hmem, hl⟩ := ih hin
      by_cases hc : c = '\n'
      · exact ⟨l, by simp [splitLines, hc, hmem], hl⟩
      · obtain ⟨l0, ls, hsplit⟩ := List.exists_cons_of_ne_nil (splitLines_ne_nil cs)
        rw [hsplit] at hmem
        rcases List.mem_cons.1 hmem with rfl | hmem
        · exact ⟨c :: l, by simp [splitLines, hc, hsplit], List.infix_cons hl⟩
        · exact ⟨l, by simp [splitLines, hc, hsplit, hmem], hl⟩

theorem contains_some_line (text pat : String) (hnl : '\n' ∉ pat.data)
    (h : contains text pat) : ∃ l ∈ reportLines text, pat.data <:+: l.data := by
  obtain ⟨l, hmem, hl⟩ := infix_some_line pat.data hnl text.data h
  exact ⟨String.mk l, List.mem_map.2 ⟨l, hmem, rfl⟩, hl⟩

theorem hasLine_of_mem (text pfx sp full rest : String) (hfull : full = pfx ++ sp)
    (h : (full ++ rest) ∈ reportLines text) : hasLineWithPrefix text pfx := by
  refine ⟨_, h, (sp ++ rest).data, ?_⟩
  simp [hfull, String.data_append]

theorem netmask_lines_tail_no_newline (p : Nat) (hp : p ≤ 32) :
    '\n' ∉ ("Netmask: " ++ join ((CIDRMask p 32).map fmtD) "." ++ " = "
        ++ join [binChunk p 0, binChunk p 1, binChunk p 2, binChunk p 3] ".").data ∧
    '\n' ∉ ("Wildcard: " ++ join (wildcardMask (CIDRMask p 32)) ".").data ∧
    '\n' ∉ ("Hex netmask: 0x" ++ join ((CIDRMask p 32).map fmt02X) "").data ∧
    '\n' ∉ ("Prefix: /" ++ fmtD p).data := by
  interval_cases p <;> decide

theorem netmask_lines (a b c d p : Nat) (hp : p ≤ 32) :
    ∃ text, getNetmask (parsedCIDR4 [a, b, c, d] p).2
        = Except.ok (some (CallToolResult.mk text), none) ∧
      reportLines text = [
        "Address: " ++ string4 (List.zipWith (fun x m => x &&& m) [a, b, c, d] (CIDRMask p 32)),
        "Netmask: " ++ join ((CIDRMask p 32).map fmtD) "." ++ " = "
          ++ join [binChunk p 0, binChunk p 1, binChunk p 2, binChunk p 3] ".",
        "Wildcard: " ++ join (wildcardMask (CIDRMask p 32)) ".",
        "Hex netmask: 0x" ++ join ((CIDRMask p 32).map fmt02X) "",
        "Prefix: /" ++ fmtD p,
        ""] := by
  obtain ⟨h1, h2, h3, h4⟩ := netmask_lines_tail_no_newline p hp
  have h := getNetmask_eq (List.zipWith (fun x m => x &&& m) [a, b, c, d] (CIDRMask p 32)) p hp
  rw [parsedCIDR4_snd _ _ _ _ _ hp]
  refine ⟨_, h, ?_⟩
  rw [reportLines_unlines]
  · obtain ⟨m0, m1, m2, m3, hm, -⟩ := CIDRMask_shape p hp
    simp only [hm, List.zipWith, IP_String_v4]
    rfl
  · intro l hl
    simp only [List.mem_cons, List.mem_singleton, List.not_mem_nil, or_false] at hl
    rcases hl with rfl | rfl | rfl | rfl | rfl
    · obtain ⟨m0, m1, m2, m3, hm, -⟩ := CIDRMask_shape p hp
      simp only [hm, List.zipWith, IP_String_v4]
      simp [mem_data_append, string4_not_mem]
    · exact h1
    · exact h2
    · exact h3
    · exact h4

theorem binChunk_facts (p : Nat) (hp : p ≤ 32) :
    (binChunk p 0).length = 8 ∧ (binChunk p 1).length = 8 ∧
    (binChunk p 2).length = 8 ∧ (binChunk p 3).length = 8 ∧
    (binChunk p 0 ++ binChunk p 1 ++ binChunk p 2 ++ binChunk p 3).data =
      List.replicate p '1' ++ List.replicate (32 - p) '0' ∧
    (binChunk p 0 ++ binChunk p 1 ++ binChunk p 2 ++ binChunk p 3).length = 32 ∧
    (binChunk p 0 ++ binChunk p 1 ++ binChunk p 2 ++ binChunk p 3).data.count '1' = p := by
  interval_cases p <;> decide

set_option maxRecDepth 100000 in
theorem wildcard_byte_facts : ∀ b < 256,
    ((b ^^^ 0xff) % 256) &&& 0xff = 0xFF ^^^ b ∧
    parseNat 10 (fmtD (0xFF ^^^ b)) = some (0xFF ^^^ b) ∧
    (0xFF ^^^ b) + b = 255 ∧ 0xFF ^^^ b ≤ 255 := by
  decide

theorem hex_facts (p : Nat) (hp : p ≤ 32) :
    (join ((CIDRMask p 32).map fmt02X) "").length = 8 ∧
    (∀ c ∈ (join ((CIDRMask p 32).map fmt02X) "").data,
      ('0' ≤ c ∧ c ≤ '9') ∨ ('A' ≤ c ∧ c ≤ 'F')) ∧
    decodeHexPairs (join ((CIDRMask p 32).map fmt02X) "").data = some (CIDRMask p 32) := by
  interval_cases p <;> decide

theorem CIDRMask_value (p : Nat) (hp : p ≤ 32) :
    beUint32 (CIDRMask p 32) = 2 ^ 32 - 2 ^ (32 - p) := by
  interval_cases p <;> rfl

theorem octet_group_facts (p : Nat) (hp : p ≤ 32) :
    ∃ m0 m1 m2 m3, CIDRMask p 32 = [m0, m1, m2, m3] ∧
      parseNat 10 (fmtD m0) = some m0 ∧ parseNat 10 (fmtD m1) = some m1 ∧
      parseNat 10 (fmtD m2) = some m2 ∧ parseNat 10 (fmtD m3) = some m3 ∧
      parseNat 2 (binChunk p 0) = some m0 ∧ parseNat 2 (binChunk p 1) = some m1 ∧
      parseNat 2 (binChunk p 2) = some m2 ∧ parseNat 2 (binChunk p 3) = some m3 := by
  interval_cases p <;>
    exact ⟨_, _, _, _, rfl, by decide, by decide, by decide, by decide,
      by decide, by decide, by decide, by decide⟩

/-! ## Lemmas on the handler and the parsers -/

theorem ipcalcHandler_strings (arguments : Arguments) (op ipCIDR : String)
    (hop : arguments "operation" = some (ArgValue.string op))
    (hip : arguments "ip" = some (ArgValue.string ipCIDR)) :
    ipcalcHandler arguments =
      match ParseCIDR ipCIDR with
      | none => Except.ok (none, some (GoError.mk invalidFormatMessage))
      | some (ip, ipNet) =>
        if op = "info" then getIPInfo ip ipNet
        else if op = "netmask" then getNetmask ipNet
        else Except.ok (none, some (GoError.mk "Unknown operation")) := by
  simp only [ipcalcHandler, hop, hip, assertString, bind, Except.bind, pure, Except.pure]

theorem digit_char_cases (c : Char) (h : '0' ≤ c ∧ c ≤ '9') :
    c ∈ ['0', '1', '2', '3', '4', '5', '6', '7', '8', '9'] := by
  obtain ⟨h1, h2⟩ := h
  have h1' : 48 ≤ c.toNat := h1
  have h2' : c.toNat ≤ 57 := h2
  have hc : c = Char.ofNat c.toNat := (Char.ofNat_toNat c).symm
  generalize c.toNat = n at h1' h2' hc
  subst hc
  interval_cases n <;> decide

set_option maxRecDepth 100000 in
theorem digit_char_facts_closed : ∀ c ∈ ['0', '1', '2', '3', '4', '5', '6', '7', '8', '9'],
    c.toNat - 48 < 10 ∧ (fmtD (c.toNat - 48)).data = [c] ∧ c ≠ '.' ∧
    ∀ v, v < 26 → 1 ≤ v → v * 10 + (c.toNat - 48) ≤ 255 →
      (fmtD (v * 10 + (c.toNat - 48))).data = (fmtD v).data ++ [c] := by
  decide

theorem digit_char_facts (c : Char) (h : '0' ≤ c ∧ c ≤ '9') :
    c.toNat - 48 < 10 ∧ (fmtD (c.toNat - 48)).data = [c] ∧ c ≠ '.' ∧
    ∀ v, 1 ≤ v → v * 10 + (c.toNat - 48) ≤ 255 →
      (fmtD (v * 10 + (c.toNat - 48))).data = (fmtD v).data ++ [c] := by
  obtain ⟨h1, h2, h3, h4⟩ := digit_char_facts_closed c (digit_char_cases c h)
  exact ⟨h1, h2, h3, fun v hv hle => h4 v (by omega) hv hle⟩

theorem parseIPv4Loop_inv : ∀ (rest : List Char) (prev : Option Char) (val digLen : Nat)
    (fields out : List Nat),
    FieldInv prev val digLen fields → (prev = some '.' → rest ≠ []) →
    parseIPv4Loop prev rest val digLen fields = some out →
    ∃ more, out = fields ++ more ∧ (∀ b ∈ more, b < 256) ∧
      fields.length + more.length = 4 ∧
      (if digLen = 0 then [] else (fmtD val).data) ++ rest = renderFields more := by
  intro rest
  induction rest with
  | nil =>
    intro prev val digLen fields out hinv hdot h
    obtain ⟨h0, h1, hnone, hlen, hb⟩ := hinv
    unfold parseIPv4Loop at h
    split at h
    · exact absurd h (by simp)
    · rename_i hlen3
      have hout : out = fields ++ [val % 256] := by simpa using h.symm
      have hdig : digLen ≠ 0 := by
        intro hd
        rcases (h0 hd).2 with hp | hp
        · have := hnone hp; subst this; simp at hlen3
        · exact hdot hp rfl
      obtain ⟨-, -, hv, -⟩ := h1 hdig
      have hmod : val % 256 = val := Nat.mod_eq_of_lt (by omega)
      refine ⟨[val], by rw [hout, hmod], ?_, ?_, ?_⟩
      · intro b hb'; simp at hb'; omega
      · simp; omega
      · simp [hdig, renderFields]
  | cons c rest ih =>
    intro prev val digLen fields out hinv hdot h
    obtain ⟨h0, h1, hnone, hlen, hb⟩ := hinv
    unfold parseIPv4Loop at h
    split at h
    · rename_i hdigit
      obtain ⟨hd10, hrepr, hcdot, hext⟩ := digit_char_facts c hdigit
      split at h
      · exact absurd h (by simp)
      · rename_i hlead
        split at h
        · exact absurd h (by simp)
        · rename_i hval
          have hval' : val * 10 + (c.toNat - 48) ≤ 255 := by omega
          have hinv' : FieldInv (some c) (val * 10 + (c.toNat - 48)) (digLen + 1) fields := by
            refine ⟨fun e => absurd e (by omega), fun _ => ⟨by simp, ?_, hval', ?_⟩,
              fun e => absurd e (by simp), hlen, hb⟩
            · intro e; exact hcdot (Option.some.inj e)
            · intro hz
              by_cases hd : digLen = 0
              · omega
              · obtain ⟨-, -, -, hz1⟩ := h1 hd
                have hv0 : val = 0 := by omega
                exact absurd ⟨hz1 hv0, hv0⟩ hlead
          obtain ⟨more, ho, hmb, hml, hr⟩ := ih (some c) _ _ fields out hinv'
            (fun e => absurd (Option.some.inj e) hcdot) h
          refine ⟨more, ho, hmb, hml, ?_⟩
          rw [← hr]
          simp only [Nat.add_one_ne_zero, if_false]
          by_cases hd : digLen = 0
          · obtain ⟨hv0, -⟩ := h0 hd
            subst hv0
            simp [hd, hrepr]
          · obtain ⟨-, -, -, hz1⟩ := h1 hd
            have hv1 : 1 ≤ val := by
              by_contra hv
              have hv0 : val = 0 := by omega
              exact hlead ⟨hz1 hv0, hv0⟩
            simp [hd, hext val hv1 hval']
    · split at h
      · rename_i hndigit hc
        subst hc
        split at h
        · exact absurd h (by simp)
        · rename_i hcond
          split at h
          · exact absurd h (by simp)
          · rename_i hpos
            have hp1 : prev ≠ none := fun e => hcond (Or.inl e)
            have hr1 : rest ≠ [] := fun e => hcond (Or.inr (Or.inl e))
            have hp2 : prev ≠ some '.' := fun e => hcond (Or.inr (Or.inr e))
            have hdig : digLen ≠ 0 := by
              intro hd
              rcases (h0 hd).2 with hp | hp
              · exact hp1 hp
              · exact hp2 hp
            obtain ⟨-, -, hv, -⟩ := h1 hdig
            have hmod : val % 256 = val := Nat.mod_eq_of_lt (by omega)
            rw [hmod] at h
            have hinv' : FieldInv (some '.') 0 0 (fields ++ [val]) := by
              refine ⟨fun _ => ⟨rfl, Or.inr rfl⟩, fun e => absurd rfl e,
                fun e => absurd e (by simp), ?_, ?_⟩
              · simp; omega
              · intro b hb'
                rcases List.mem_append.1 hb' with hb' | hb'
                · exact hb b hb'
                · simp at hb'; omega
            obtain ⟨more, ho, hmb, hml, hr⟩ := ih (some '.') 0 0 (fields ++ [val]) out hinv'
              (fun _ => hr1) h
            have hmne : more ≠ [] := by
              intro e; subst e; simp at hml; omega
            obtain ⟨y, ys, hys⟩ := List.exists_cons_of_ne_nil hmne
            subst hys
            refine ⟨val :: y :: ys, by simpa using ho, ?_, ?_, ?_⟩
            · intro b hb'
              rcases List.mem_cons.1 hb' with rfl | hb'
              · omega
              · exact hmb b hb'
            · simp at hml ⊢; omega
            · simp only [hdig, if_false, renderFields]
              simp at hr
              rw [hr]
      · exact absurd h (by simp)



theorem parseIPv4_inv (s : List Char) (out : List Nat) (h : parseIPv4 s = some out) :
    ∃ a b c d, a < 256 ∧ b < 256 ∧ c < 256 ∧ d < 256 ∧ out = [a, b, c, d] ∧
      s = (string4 [a, b, c, d]).data := by
  have hinv : FieldInv none 0 0 [] :=
    ⟨fun _ => ⟨rfl, Or.inl rfl⟩, fun e => absurd rfl e, fun _ => rfl, by simp, by simp⟩
  obtain ⟨more, ho, hmb, hml, hr⟩ := parseIPv4Loop_inv s none 0 0 [] out hinv
    (fun e => absurd e (by simp)) h
  simp only [List.nil_append, List.length_nil, Nat.zero_add, if_true] at ho hml hr
  subst ho
  match out, hml, hmb, hr with
  | [a, b, c, d], _, hmb, hr =>
    refine ⟨a, b, c, d, hmb a (by simp), hmb b (by simp), hmb c (by simp), hmb d (by simp),
      rfl, ?_⟩
    rw [hr]
    simp [renderFields, string4_quad, String.data_append]

theorem splitSlash_eq (s addr mask : List Char) (h : splitSlash s = some (addr, mask)) :
    s = addr ++ '/' :: mask ∧ '/' ∉ addr := by
  induction s generalizing addr with
  | nil => simp [splitSlash] at h
  | cons c rest ih =>
    unfold splitSlash at h
    split at h
    · rename_i hc
      subst hc
      simp at h
      obtain ⟨rfl, rfl⟩ := h
      simp
    · rename_i hc
      split at h
      · exact absurd h (by simp)
      · rename_i r hr
        simp at h
        obtain ⟨rfl, rfl⟩ := h
        obtain ⟨h1, h2⟩ := ih r.1 (by simpa using hr)
        refine ⟨by rw [h1]; simp, ?_⟩
        intro hm
        rcases List.mem_cons.1 hm with e | e
        · exact hc e.symm
        · exact h2 e

theorem firstSeparator_mem (s : List Char) (c : Char) (h : firstSeparator s = some c) :
    c ∈ s := by
  induction s with
  | nil => simp [firstSeparator] at h
  | cons x rest ih =>
    unfold firstSeparator at h
    split at h
    · simp at h; subst h; simp
    · exact List.mem_cons_of_mem _ (ih h)

theorem dtoiLoop_parseDigits : ∀ (s : List Char) (n i m j : Nat),
    dtoiLoop s n i = some (m, j) → j = i + s.length → parseDigits 10 s n = some m := by
  intro s
  induction s with
  | nil =>
    intro n i m j h _
    unfold dtoiLoop at h
    split at h
    · exact absurd h (by simp)
    · simp at h; simp [parseDigits, h.1]
  | cons c rest ih =>
    intro n i m j h hj
    unfold dtoiLoop at h
    split at h
    · rename_i hd
      split at h
      · exact absurd h (by simp)
      · have hv : digitValue c = some (c.toNat - 48) := by simp [digitValue, hd]
        have hlt : c.toNat - 48 < 10 := (digit_char_facts c hd).1
        simp only [parseDigits, hv, hlt, if_true]
        exact ih _ _ m j h (by simp at hj; omega)
    · split at h
      · exact absurd h (by simp)
      · simp at h
        simp at hj
        omega

theorem dtoi_parseNat (s : List Char) (p : Nat) (h : dtoi s = some (p, s.length)) :
    parseNat 10 (String.mk s) = some p := by
  have hne : s ≠ [] := by
    intro e; subst e; simp [dtoi, dtoiLoop] at h
  simp only [parseNat, hne, if_false]
  exact dtoiLoop_parseDigits s 0 0 p s.length h (by simp)

theorem ParseAddr_cases (addr : List Char) (ipAddr : Addr) (h : ParseAddr addr = some ipAddr) :
    (∃ a b c d, a < 256 ∧ b < 256 ∧ c < 256 ∧ d < 256 ∧
      addr = (string4 [a, b, c, d]).data ∧
      ipAddr = { is4 := true, addr16 := v4InV6Prefix ++ [a, b, c, d], zone := [] }) ∨
    (':' ∈ addr ∧ parseIPv6 addr = some (ipAddr.addr16, ipAddr.zone) ∧ ipAddr.is4 = false) := by
  unfold ParseAddr at h
  split at h
  · split at h
    · exact absurd h (by simp)
    · rename_i fields hf
      obtain ⟨a, b, c, d, ha, hb, hc, hd, hout, hs⟩ := parseIPv4_inv addr fields hf
      left
      refine ⟨a, b, c, d, ha, hb, hc, hd, hs, ?_⟩
      simp at h
      rw [← h, hout]
  · split at h
    · rename_i hsep
      split at h
      · exact absurd h (by simp)
      · rename_i r hr
        right
        simp at h
        subst h
        exact ⟨firstSeparator_mem addr ':' hsep, hr, rfl⟩
    · exact absurd h (by simp)

theorem ParseCIDR_cases (s : String) (ip : IP) (ipNet : IPNet)
    (h : ParseCIDR s = some (ip, ipNet)) :
    ∃ addr pfx p, s = addr ++ "/" ++ pfx ∧ '/' ∉ addr.data ∧ parseNat 10 pfx = some p ∧
      ((∃ a b c d, a < 256 ∧ b < 256 ∧ c < 256 ∧ d < 256 ∧ addr = string4 [a, b, c, d] ∧
          p ≤ 32 ∧ (ip, ipNet) = parsedCIDR4 [a, b, c, d] p) ∨
        (':' ∈ addr.data ∧ parseIPv6 addr.data = some (ip, []) ∧ p ≤ 128 ∧
          ipNet = { IP := IP.Mask ip (CIDRMask p 128), Mask := CIDRMask p 128 })) := by
  unfold ParseCIDR at h
  split at h
  · exact absurd h (by simp)
  · rename_i addr mask hsplit
    obtain ⟨hs, hno⟩ := splitSlash_eq s.data addr mask hsplit
    split at h
    · exact absurd h (by simp)
    · rename_i ipAddr hparse
      split at h
      · exact absurd h (by simp)
      · rename_i hzone
        split at h
        · exact absurd h (by simp)
        · rename_i n i hdtoi
          split at h
          · exact absurd h (by simp)
          · rename_i hcond
            have hi : i = mask.length := by
              by_contra hne; exact hcond (Or.inl hne)
            have hn : n ≤ ipAddr.BitLen := by
              by_contra hne; exact hcond (Or.inr (by omega))
            subst hi
            have hp := dtoi_parseNat mask n hdtoi
            have hz : ipAddr.zone = [] := by simpa using hzone
            simp only [Option.some.injEq, Prod.mk.injEq] at h
            obtain ⟨hip, hnet⟩ := h
            refine ⟨String.mk addr, String.mk mask, n, ?_, hno, hp, ?_⟩
            · apply String.ext
              simp [String.data_append, hs]
            · rcases ParseAddr_cases addr ipAddr hparse with
                ⟨a, b, c, d, ha, hb, hc, hd, haddr, hA⟩ | ⟨hcolon, h6, h4⟩
              · left
                subst hA
                refine ⟨a, b, c, d, ha, hb, hc, hd, ?_, by simpa [Addr.BitLen] using hn, ?_⟩
                · apply String.ext; simpa using haddr
                · rw [← hip, ← hnet]; rfl
              · right
                have hbl : ipAddr.BitLen = 128 := by simp [Addr.BitLen, h4]
                rw [hbl] at hn hnet
                rw [hz] at h6
                rw [← hip, ← hnet]
                exact ⟨hcolon, h6, hn, rfl⟩

/-! ## Lemmas on network, broadcast and wildcard values -/

theorem Size_CIDRMask128 (p : Nat) (hp : p ≤ 128) :
    IPMask.Size (CIDRMask p 128) = (p, 128) ∧ (CIDRMask p 128).length = 16 := by
  interval_cases p <;> exact ⟨rfl, rfl⟩

set_option maxRecDepth 1000000 in
theorem mask_byte_facts : ∀ m ∈ [0, 128, 192, 224, 240, 248, 252, 254, 255], ∀ a < 256,
    a &&& m ≤ a ∧ a ≤ (a &&& m) ||| (0xFF ^^^ m) ∧
    (a &&& m) ||| (0xFF ^^^ m) = (a &&& m) + (255 - m) ∧
    (a &&& m) &&& m = a &&& m ∧
    ((a &&& m) ||| (0xFF ^^^ m)) &&& m = a &&& m ∧
    ((a &&& m) ||| (0xFF ^^^ m)) &&& (0xFF ^^^ m) = 0xFF ^^^ m ∧
    (a &&& m) &&& (0xFF ^^^ m) = 0 ∧
    0xFF ^^^ m = 255 - m ∧
    (a &&& m) % (256 - m) = 0 ∧ a &&& m ≤ m := by
  decide

theorem CIDRMask_bytes (p : Nat) (hp : p ≤ 32) :
    ∃ m0 m1 m2 m3, CIDRMask p 32 = [m0, m1, m2, m3] ∧
      m0 ∈ [0, 128, 192, 224, 240, 248, 252, 254, 255] ∧
      m1 ∈ [0, 128, 192, 224, 240, 248, 252, 254, 255] ∧
      m2 ∈ [0, 128, 192, 224, 240, 248, 252, 254, 255] ∧
      m3 ∈ [0, 128, 192, 224, 240, 248, 252, 254, 255] ∧
      ((m0 * 256 + m1) * 256 + m2) * 256 + m3 + 2 ^ (32 - p) = 2 ^ 32 := by
  interval_cases p <;>
    exact ⟨_, _, _, _, rfl, by decide, by decide, by decide, by decide, by decide⟩

theorem beUint32_quad (x0 x1 x2 x3 : Nat) :
    beUint32 [x0, x1, x2, x3] = ((x0 * 256 + x1) * 256 + x2) * 256 + x3 := by
  simp [beUint32]

/-- Integer facts on network and broadcast of a parsed IPv4 CIDR with `p < 32`,
on the bytes `n = a & m` and `n | (0xFF ^ m)`. -/
theorem network_broadcast_values (a b c d p : Nat)
    (ha : a < 256) (hb : b < 256) (hc : c < 256) (hd : d < 256) (hp : p ≤ 32) :
    ∃ m0 m1 m2 m3 n0 n1 n2 n3 b0 b1 b2 b3,
      CIDRMask p 32 = [m0, m1, m2, m3] ∧
      (parsedCIDR4 [a, b, c, d] p).2.IP = [n0, n1, n2, n3] ∧
      List.zipWith (fun n m => n ||| (0xFF ^^^ m)) [n0, n1, n2, n3] [m0, m1, m2, m3]
        = [b0, b1, b2, b3] ∧
      [0xFF ^^^ m0, 0xFF ^^^ m1, 0xFF ^^^ m2, 0xFF ^^^ m3]
        = [255 - m0, 255 - m1, 255 - m2, 255 - m3] ∧
      m0 ≤ 255 ∧ m1 ≤ 255 ∧ m2 ≤ 255 ∧ m3 ≤ 255 ∧
      beUint32 [m0, m1, m2, m3] + 2 ^ (32 - p) = 2 ^ 32 ∧
      beUint32 [255 - m0, 255 - m1, 255 - m2, 255 - m3] + 1 = 2 ^ (32 - p) ∧
      beUint32 [b0, b1, b2, b3] + 1 = beUint32 [n0, n1, n2, n3] + 2 ^ (32 - p) ∧
      beUint32 [n0, n1, n2, n3] ≤ beUint32 [a, b, c, d] ∧
      beUint32 [a, b, c, d] ≤ beUint32 [b0, b1, b2, b3] ∧
      List.zipWith (fun x m => x &&& m) [n0, n1, n2, n3] [m0, m1, m2, m3] = [n0, n1, n2, n3] ∧
      List.zipWith (fun x m => x &&& m) [b0, b1, b2, b3] [m0, m1, m2, m3] = [n0, n1, n2, n3] ∧
      List.zipWith (fun x m => x &&& (0xFF ^^^ m)) [b0, b1, b2, b3] [m0, m1, m2, m3]
        = [0xFF ^^^ m0, 0xFF ^^^ m1, 0xFF ^^^ m2, 0xFF ^^^ m3] ∧
      List.zipWith (fun x m => x &&& (0xFF ^^^ m)) [n0, n1, n2, n3] [m0, m1, m2, m3]
        = [0, 0, 0, 0] := by
  obtain ⟨m0, m1, m2, m3, hm, e0, e1, e2, e3, hval⟩ := CIDRMask_bytes p hp
  obtain ⟨f01, f02, f03, f04, f05, f06, f07, f08, f09, f0a⟩ := mask_byte_facts m0 e0 a ha
  obtain ⟨f11, f12, f13, f14, f15, f16, f17, f18, f19, f1a⟩ := mask_byte_facts m1 e1 b hb
  obtain ⟨f21, f22, f23, f24, f25, f26, f27, f28, f29, f2a⟩ := mask_byte_facts m2 e2 c hc
  obtain ⟨f31, f32, f33, f34, f35, f36, f37, f38, f39, f3a⟩ := mask_byte_facts m3 e3 d hd
  have l0 : m0 ≤ 255 := by simp at e0; omega
  have l1 : m1 ≤ 255 := by simp at e1; omega
  have l2 : m2 ≤ 255 := by simp at e2; omega
  have l3 : m3 ≤ 255 := by simp at e3; omega
  have hpow : 0 < 2 ^ (32 - p) := Nat.pow_pos (by decide)
  refine ⟨m0, m1, m2, m3, a &&& m0, b &&& m1, c &&& m2, d &&& m3,
    (a &&& m0) ||| (0xFF ^^^ m0), (b &&& m1) ||| (0xFF ^^^ m1),
    (c &&& m2) ||| (0xFF ^^^ m2), (d &&& m3) ||| (0xFF ^^^ m3),
    hm, ?_, rfl, ?_, l0, l1, l2, l3, ?_, ?_, ?_, ?_, ?_, ?_, ?_, ?_, ?_⟩
  · rw [parsedCIDR4_snd a b c d p hp, hm]; rfl
  · rw [f08, f18, f28, f38]
  · rw [beUint32_quad]; exact hval
  · rw [beUint32_quad]; omega
  · rw [beUint32_quad, beUint32_quad, f03, f13, f23, f33]; omega
  · rw [beUint32_quad, beUint32_quad]; omega
  · rw [beUint32_quad, beUint32_quad]; omega
  · simp only [List.zipWith]; rw [f04, f14, f24, f34]
  · simp only [List.zipWith]; rw [f05, f15, f25, f35]
  · simp only [List.zipWith]; rw [f06, f16, f26, f36]
  · simp only [List.zipWith]; rw [f07, f17, f27, f37]

theorem mask_multiple (p : Nat) (hp : p ≤ 32) (m0 m1 m2 m3 n0 n1 n2 n3 : Nat)
    (hm : CIDRMask p 32 = [m0, m1, m2, m3])
    (h0 : n0 % (256 - m0) = 0) (h1 : n1 % (256 - m1) = 0)
    (h2 : n2 % (256 - m2) = 0) (h3 : n3 % (256 - m3) = 0)
    (l0 : n0 ≤ m0) (l1 : n1 ≤ m1) (l2 : n2 ≤ m2) (l3 : n3 ≤ m3) :
    (((n0 * 256 + n1) * 256 + n2) * 256 + n3) % 2 ^ (32 - p) = 0 := by
  interval_cases p <;>
  · simp [CIDRMask, cidrMaskLoop] at hm
    obtain ⟨rfl, rfl, rfl, rfl⟩ := hm
    omega

theorem network_host_bits_zero (a b c d p : Nat)
    (ha : a < 256) (hb : b < 256) (hc : c < 256) (hd : d < 256) (hp : p ≤ 32) :
    beUint32 (parsedCIDR4 [a, b, c, d] p).2.IP % 2 ^ (32 - p) = 0 := by
  obtain ⟨m0, m1, m2, m3, hm, e0, e1, e2, e3, -⟩ := CIDRMask_bytes p hp
  obtain ⟨-, -, -, -, -, -, -, -, f09, f0a⟩ := mask_byte_facts m0 e0 a ha
  obtain ⟨-, -, -, -, -, -, -, -, f19, f1a⟩ := mask_byte_facts m1 e1 b hb
  obtain ⟨-, -, -, -, -, -, -, -, f29, f2a⟩ := mask_byte_facts m2 e2 c hc
  obtain ⟨-, -, -, -, -, -, -, -, f39, f3a⟩ := mask_byte_facts m3 e3 d hd
  rw [parsedCIDR4_snd a b c d p hp, hm]
  simp only [List.zipWith]
  rw [beUint32_quad]
  exact mask_multiple p hp m0 m1 m2 m3 _ _ _ _ hm f09 f19 f29 f39 f0a f1a f2a f3a

theorem block_mod_div (n b k : Nat) (hk : 0 < k) (hn : n % k = 0) (hb : b + 1 = n + k) :
    b % k = k - 1 ∧ b / k = n / k := by
  obtain ⟨t, rfl⟩ := Nat.dvd_of_mod_eq_zero hn
  have hb' : b = k * t + (k - 1) := by omega
  subst hb'
  constructor
  · rw [Nat.mul_add_mod]; exact Nat.mod_eq_of_lt (by omega)
  · rw [Nat.mul_add_div hk, Nat.div_eq_of_lt (by omega : k - 1 < k)]
    simp [Nat.mul_div_cancel_left t hk]

theorem info_lines_lt_bytes (a b c d p : Nat) (hp : p < 32) :
    ∃ text, getIPInfo (parsedCIDR4 [a, b, c, d] p).1 (parsedCIDR4 [a, b, c, d] p).2
        = Except.ok (some (CallToolResult.mk text), none) ∧
      reportLines text = [
        "IP Address: " ++ string4 [a, b, c, d],
        "Network: " ++ string4 (parsedCIDR4 [a, b, c, d] p).2.IP ++ "/" ++ fmtD p,
        "Netmask: " ++ string4 (CIDRMask p 32),
        "Broadcast: " ++ string4 (List.zipWith (fun n m => n ||| (0xFF ^^^ m))
          (parsedCIDR4 [a, b, c, d] p).2.IP (CIDRMask p 32)),
        "Prefix: /" ++ fmtD p,
        "Usable Hosts: " ++ fmtD (2 ^ (32 - p) - 2),
        ""] := by
  obtain ⟨text, h, hl⟩ := info_lines_lt a b c d p hp
  obtain ⟨m0, m1, m2, m3, hm, h0, h1, h2, h3⟩ := CIDRMask_shape p (Nat.le_of_lt hp)
  refine ⟨text, h, ?_⟩
  rw [hl, parsedCIDR4_snd a b c d p (Nat.le_of_lt hp)]
  simp only [hm, List.zipWith]
  rw [broadcast_byte _ _ (and_byte a _ h0) h0, broadcast_byte _ _ (and_byte b _ h1) h1,
    broadcast_byte _ _ (and_byte c _ h2) h2, broadcast_byte _ _ (and_byte d _ h3) h3]

set_option maxRecDepth 100000 in
theorem byte_decimal_roundtrip : ∀ b < 256, parseNat 10 (fmtD b) = some b := by decide

/-! ## Characters of a rendered address -/

theorem lowerHexDigit_ne (x : Char) (hx : x.isDigit = false) (hx2 : x ∉ "abcdef:.?<>nil".data) :
    ∀ k, x ≠ lowerHexDigit (k % 16) := by
  intro k
  have hk : k % 16 < 16 := Nat.mod_lt _ (by decide)
  have key : ∀ j < 16, (lowerHexDigit j).isDigit = true ∨ lowerHexDigit j ∈ "abcdef:.?<>nil".data := by
    decide
  intro e
  rcases key (k % 16) hk with h | h
  · rw [← e, hx] at h; exact absurd h (by decide)
  · rw [← e] at h; exact hx2 h

theorem hexString_not_mem (b : List Nat) (x : Char) (hx : x.isDigit = false)
    (hx2 : x ∉ "abcdef:.?<>nil".data) : x ∉ (hexString b).data := by
  intro h
  simp only [hexString, List.mem_flatMap] at h
  obtain ⟨tn, -, hm⟩ := h
  simp only [List.mem_cons, List.mem_singleton, List.not_mem_nil, or_false] at hm
  rcases hm with e | e
  · exact lowerHexDigit_ne x hx hx2 (tn / 16) e
  · exact lowerHexDigit_ne x hx hx2 tn e

theorem foldl_join_not_mem (x : Char) (sep : String) (hsep : x ∉ sep.data) :
    ∀ (parts : List String) (acc : String), x ∉ acc.data → (∀ s ∈ parts, x ∉ s.data) →
      x ∉ (parts.foldl (fun acc q => acc ++ sep ++ q) acc).data := by
  intro parts
  induction parts with
  | nil => intro acc h _; simpa using h
  | cons q rest ih =>
    intro acc h hall
    simp only [List.foldl]
    apply ih
    · simp only [mem_data_append, not_or]
      exact ⟨⟨h, hsep⟩, hall q (by simp)⟩
    · intro s hs; exact hall s (by simp [hs])

theorem join_not_mem (x : Char) (sep : String) (hsep : x ∉ sep.data) (parts : List String)
    (hall : ∀ s ∈ parts, x ∉ s.data) : x ∉ (join parts sep).data := by
  cases parts with
  | nil => simp [join]
  | cons q rest =>
    simp only [join]
    exact foldl_join_not_mem x sep hsep rest q (hall q (by simp))
      (fun s hs => hall s (by simp [hs]))

theorem string4_list_not_mem (p4 : List Nat) (x : Char) (hx : x.isDigit = false)
    (hx2 : x ∉ "abcdef:.?<>nil".data) : x ∉ (string4 p4).data := by
  apply join_not_mem
  · intro h
    apply hx2
    have : x = '.' := by simpa using h
    subst this; decide
  · intro s hs
    obtain ⟨n, -, rfl⟩ := List.mem_map.1 hs
    exact fmtD_not_mem n x hx

theorem appendHex_not_mem (v : Nat) (x : Char) (hx : x.isDigit = false)
    (hx2 : x ∉ "abcdef:.?<>nil".data) : x ∉ (appendHex v).data := by
  intro h
  simp only [appendHex, List.mem_append, List.mem_singleton] at h
  rcases h with ((h | h) | h) | h
  · split at h
    · exact lowerHexDigit_ne x hx hx2 (v / 4096) (by simpa using h)
    · simp at h
  · split at h
    · exact lowerHexDigit_ne x hx hx2 (v / 256) (by simpa using h)
    · simp at h
  · split at h
    · exact lowerHexDigit_ne x hx hx2 (v / 16) (by simpa using h)
    · simp at h
  · exact lowerHexDigit_ne x hx hx2 v h

theorem appendTo6Loop_not_mem (gs : List Nat) (zs ze : Nat) (x : Char) (hx : x.isDigit = false)
    (hx2 : x ∉ "abcdef:.?<>nil".data) : ∀ (fuel i : Nat) (ret : String), x ∉ ret.data →
      x ∉ (appendTo6Loop gs zs ze fuel i ret).data := by
  have hcolon : x ∉ ":".data := by
    intro h; apply hx2
    have : x = ':' := by simpa using h
    subst this; decide
  have hcc : x ∉ "::".data := by
    intro h; apply hx2
    have : x = ':' := by simpa using h
    subst this; decide
  intro fuel
  induction fuel with
  | zero => intro i ret h; simpa [appendTo6Loop] using h
  | succ fuel ih =>
    intro i ret h
    unfold appendTo6Loop
    split
    · exact h
    · split
      · split
        · simp only [mem_data_append, not_or]; exact ⟨h, hcc⟩
        · apply ih
          simp only [mem_data_append, not_or]
          exact ⟨⟨h, hcc⟩, appendHex_not_mem _ x hx hx2⟩
      · apply ih
        simp only [mem_data_append, not_or]
        refine ⟨?_, appendHex_not_mem _ x hx hx2⟩
        split
        · simp only [mem_data_append, not_or]; exact ⟨h, hcolon⟩
        · exact h

theorem IP_String_not_mem (ip : IP) (x : Char) (hx : x.isDigit = false)
    (hx2 : x ∉ "abcdef:.?<>nil".data) : x ∉ (IP.String ip).data := by
  unfold IP.String
  split
  · intro h
    have h2 : x = '<' ∨ x = 'n' ∨ x = 'i' ∨ x = 'l' ∨ x = '>' := by simpa using h
    apply hx2
    rcases h2 with rfl | rfl | rfl | rfl | rfl <;> decide
  · split
    · simp only [mem_data_append, not_or]
      refine ⟨?_, hexString_not_mem ip x hx hx2⟩
      intro h; apply hx2
      have : x = '?' := by simpa using h
      subst this; decide
    · split
      · exact string4_list_not_mem _ x hx hx2
      · exact appendTo6Loop_not_mem _ _ _ x hx hx2 _ _ _ (by simp)

/-! ## The report for a 16-byte mask -/

theorem broadcastLoop_ok (mask : IPMask) : ∀ (network : List Nat) (i : Nat),
    i + network.length ≤ mask.length →
    ∃ bc, broadcastLoop mask network i = Except.ok bc ∧ bc.length = network.length := by
  intro network
  induction network with
  | nil => intro i _; exact ⟨[], rfl, rfl⟩
  | cons b rest ih =>
    intro i h
    have hi : i < mask.length := by simp at h; omega
    obtain ⟨bc, hbc, hlen⟩ := ih (i + 1) (by simp at h ⊢; omega)
    refine ⟨((b ||| ((mask.get ⟨i, hi⟩ ^^^ 0xff) % 256)) % 256) :: bc, ?_, by simp [hlen]⟩
    simp only [broadcastLoop, index, List.get?_eq_get hi, hbc, bind, Except.bind, pure,
      Except.pure]

theorem getIPInfo_v6_lt (ip network : IP) (p : Nat) (hlen : network.length = 16)
    (hp : p < 128) :
    ∃ m0 m1 m2 m3 broadcast, getIPInfo ip { IP := network, Mask := CIDRMask p 128 } =
      Except.ok (some (CallToolResult.mk (unlines [
        "IP Address: " ++ IP.String ip,
        "Network: " ++ IP.String network ++ "/" ++ fmtD p,
        "Netmask: " ++ (fmtD m0 ++ "." ++ fmtD m1 ++ "." ++ fmtD m2 ++ "." ++ fmtD m3),
        "Broadcast: " ++ IP.String broadcast,
        "Prefix: /" ++ fmtD p,
        "Usable Hosts: 0"])), none) := by
  obtain ⟨hs, hl⟩ := Size_CIDRMask128 p (Nat.le_of_lt hp)
  obtain ⟨bc, hbc, -⟩ := broadcastLoop_ok (CIDRMask p 128) network 0 (by omega)
  have hshape : ∃ m0 m1 m2 m3 rest, CIDRMask p 128 = m0 :: m1 :: m2 :: m3 :: rest := by
    match CIDRMask p 128, hl with
    | m0 :: m1 :: m2 :: m3 :: rest, _ => exact ⟨m0, m1, m2, m3, rest, rfl⟩
  obtain ⟨m0, m1, m2, m3, rest, hm⟩ := hshape
  have hne : p ≠ 128 := Nat.ne_of_lt hp
  have hl0 : "Usable Hosts: 0\n" = "Usable Hosts: 0" ++ "\n" := by decide
  have ht : fmtF0 (totalHosts p 128) = "0" := by
    simp [totalHosts]; rfl
  refine ⟨m0, m1, m2, m3, bc, ?_⟩
  rw [hm] at hs hbc
  simp only [hm]
  simp only [getIPInfo, hs, hne, hbc, index, ht, unlines, bind, Except.bind, pure, Except.pure,
    String.append_assoc, List.get?, if_false, List.foldr, String.append_empty]
  rfl

theorem getIPInfo_v6_128 (ip network : IP) :
    getIPInfo ip { IP := network, Mask := CIDRMask 128 128 } =
      Except.ok (some (CallToolResult.mk (unlines [
        "IP Address: " ++ IP.String ip,
        "Network: " ++ IP.String network ++ "/" ++ fmtD 128,
        "Netmask: " ++ "255.255.255.255",
        "Prefix: /" ++ fmtD 128,
        "Hosts/Net: 1"])), none) := by
  have hm : CIDRMask 128 128 = [255, 255, 255, 255, 255, 255, 255, 255, 255, 255, 255, 255,
    255, 255, 255, 255] := rfl
  have hs : IPMask.Size [255, 255, 255, 255, 255, 255, 255, 255, 255, 255, 255, 255, 255, 255,
    255, 255] = (128, 128) := rfl
  have hl : "Hosts/Net: 1\n" = "Hosts/Net: 1" ++ "\n" := by decide
  have h255 : fmtD 255 ++ "." ++ fmtD 255 ++ "." ++ fmtD 255 ++ "." ++ fmtD 255
      = "255.255.255.255" := by decide
  simp only [hm]
  simp only [getIPInfo, hs, index, unlines, bind, Except.bind, pure, Except.pure,
    List.get?, if_true, List.foldr, String.append_empty, hl, h255]
  simp only [String.append_assoc]

/-! ## Parsing a rendered dotted quad -/

theorem scanDigits_loop : ∀ (ds : List Char) (val digLen v n : Nat),
    scanDigits ds val digLen = some (v, n) → ds ≠ [] →
    ∃ c, c ≠ '.' ∧ n ≠ 0 ∧ ∀ prev rest fields,
      parseIPv4Loop prev (ds ++ rest) val digLen fields = parseIPv4Loop (some c) rest v n fields := by
  intro ds
  induction ds with
  | nil => intro _ _ _ _ _ h; exact absurd rfl h
  | cons c ds ih =>
    intro val digLen v n h _
    unfold scanDigits at h
    split at h
    · rename_i hdig
      split at h
      · exact absurd h (by simp)
      · rename_i hlead
        split at h
        · exact absurd h (by simp)
        · rename_i hval
          by_cases hds : ds = []
          · subst hds
            simp only [scanDigits, Option.some.injEq, Prod.mk.injEq] at h
            obtain ⟨rfl, rfl⟩ := h
            refine ⟨c, (digit_char_facts c hdig).2.2.1, by omega, fun prev rest fields => ?_⟩
            simp only [List.cons_append, List.nil_append]
            rw [parseIPv4Loop]
            simp only [hdig, hlead, hval, and_self, if_true, if_false]
          · obtain ⟨c2, hc2, hn, hstep⟩ := ih _ _ v n h hds
            refine ⟨c2, hc2, hn, fun prev rest fields => ?_⟩
            simp only [List.cons_append]
            rw [parseIPv4Loop]
            simp only [hdig, hlead, hval, and_self, if_true, if_false]
            exact hstep (some c) rest fields
    · exact absurd h (by simp)

set_option maxRecDepth 100000 in
theorem scanDigits_byte : ∀ a < 256,
    (fmtD a).data ≠ [] ∧
    scanDigits (fmtD a).data 0 0 = some (a, (fmtD a).data.length) := by
  decide

theorem parseIPv4Loop_field (a : Nat) (ha : a < 256) :
    ∃ c n, c ≠ '.' ∧ n ≠ 0 ∧ ∀ prev rest fields,
      parseIPv4Loop prev ((fmtD a).data ++ rest) 0 0 fields
        = parseIPv4Loop (some c) rest a n fields := by
  obtain ⟨hne, hscan⟩ := scanDigits_byte a ha
  obtain ⟨c, hc, hn, h⟩ := scanDigits_loop _ 0 0 a _ hscan hne
  exact ⟨c, _, hc, hn, h⟩

theorem parseIPv4Loop_dot (c x : Char) (xs : List Char) (v n : Nat) (fields : List Nat)
    (hc : c ≠ '.') (hv : v < 256) (hlen : fields.length < 3) :
    parseIPv4Loop (some c) ('.' :: x :: xs) v n fields
      = parseIPv4Loop (some '.') (x :: xs) 0 0 (fields ++ [v]) := by
  have hnd : ¬ ('0' ≤ '.' ∧ '.' ≤ '9') := by decide
  have hc2 : ¬ (some c = some '.') := fun e => hc (Option.some.inj e)
  have hl3 : ¬ fields.length = 3 := by omega
  rw [parseIPv4Loop]
  simp only [hnd, hc2, hl3, if_true, if_false, false_or, Nat.mod_eq_of_lt hv]
  simp

theorem parseIPv4_dotted (a b c d : Nat)
    (ha : a < 256) (hb : b < 256) (hc : c < 256) (hd : d < 256) :
    parseIPv4 (string4 [a, b, c, d]).data = some [a, b, c, d] := by
  obtain ⟨c1, n1, hc1, -, h1⟩ := parseIPv4Loop_field a ha
  obtain ⟨c2, n2, hc2, -, h2⟩ := parseIPv4Loop_field b hb
  obtain ⟨c3, n3, hc3, -, h3⟩ := parseIPv4Loop_field c hc
  obtain ⟨c4, n4, hc4, -, h4⟩ := parseIPv4Loop_field d hd
  obtain ⟨x2, xs2, e2⟩ := List.exists_cons_of_ne_nil (scanDigits_byte b hb).1
  obtain ⟨x3, xs3, e3⟩ := List.exists_cons_of_ne_nil (scanDigits_byte c hc).1
  obtain ⟨x4, xs4, e4⟩ := List.exists_cons_of_ne_nil (scanDigits_byte d hd).1
  have hdata : (string4 [a, b, c, d]).data
      = (fmtD a).data ++ ('.' :: ((fmtD b).data ++ ('.' :: ((fmtD c).data ++
          ('.' :: ((fmtD d).data ++ [])))))) := by
    simp [string4_quad, String.data_append]
  rw [hdata, parseIPv4, h1]
  rw [e2, List.cons_append, parseIPv4Loop_dot c1 x2 _ a n1 [] hc1 ha (by simp),
    ← List.cons_append, ← e2, h2]
  rw [e3, List.cons_append, parseIPv4Loop_dot c2 x3 _ b n2 _ hc2 hb (by simp),
    ← List.cons_append, ← e3, h3]
  rw [e4, List.cons_append, parseIPv4Loop_dot c3 x4 _ c n3 _ hc3 hc (by simp),
    ← List.cons_append, ← e4, h4]
  simp [parseIPv4Loop, Nat.mod_eq_of_lt hd]

theorem firstSeparator_digits (rest : List Char) : ∀ ds : List Char,
    (∀ c ∈ ds, c.isDigit = true) → firstSeparator (ds ++ '.' :: rest) = some '.' := by
  intro ds
  induction ds with
  | nil => intro _; simp [firstSeparator]
  | cons c ds ih =>
    intro h
    have hc : c.isDigit = true := h c (by simp)
    have h1 : c ≠ '.' := by intro e; subst e; exact absurd hc (by decide)
    have h2 : c ≠ ':' := by intro e; subst e; exact absurd hc (by decide)
    have h3 : c ≠ '%' := by intro e; subst e; exact absurd hc (by decide)
    simp only [List.cons_append, firstSeparator, h1, h2, h3, or_self, if_false]
    exact ih (fun x hx => h x (by simp [hx]))

theorem splitSlash_append (r : List Char) : ∀ l : List Char, '/' ∉ l →
    splitSlash (l ++ '/' :: r) = some (l, r) := by
  intro l
  induction l with
  | nil => intro _; simp [splitSlash]
  | cons c l ih =>
    intro h
    have hc : c ≠ '/' := fun e => h (by simp [e])
    have hl : '/' ∉ l := fun e => h (by simp [e])
    simp [splitSlash, hc, ih hl]

theorem dtoi_prefix : ∀ p ≤ 32, dtoi (fmtD p).data = some (p, (fmtD p).data.length) := by
  decide

/-- On the text `a.b.c.d/p` of four bytes and a prefix length `p <= 32`,
`net.ParseCIDR` returns the pair `parsedCIDR4 [a, b, c, d] p`. -/
theorem ParseCIDR_dotted (a b c d p : Nat)
    (ha : a < 256) (hb : b < 256) (hc : c < 256) (hd : d < 256) (hp : p ≤ 32) :
    ParseCIDR (string4 [a, b, c, d] ++ "/" ++ fmtD p) = some (parsedCIDR4 [a, b, c, d] p) := by
  have hdata : (string4 [a, b, c, d] ++ "/" ++ fmtD p).data
      = (string4 [a, b, c, d]).data ++ '/' :: (fmtD p).data := by
    simp [String.data_append]
  have hsplit := splitSlash_append (fmtD p).data (string4 [a, b, c, d]).data
    (string4_not_mem a b c d '/' (by decide) (by decide))
  have hsep : firstSeparator (string4 [a, b, c, d]).data = some '.' := by
    have e : (string4 [a, b, c, d]).data = (fmtD a).data ++ '.' ::
        ((fmtD b).data ++ ('.' :: ((fmtD c).data ++ ('.' :: (fmtD d).data)))) := by
      simp [string4_quad, String.data_append]
    rw [e]
    exact firstSeparator_digits _ _ (fmtD_isDigit a)
  have hparse : ParseAddr (string4 [a, b, c, d]).data
      = some { is4 := true, addr16 := v4InV6Prefix ++ [a, b, c, d], zone := [] } := by
    simp only [ParseAddr, hsep, if_true, parseIPv4_dotted a b c d ha hb hc hd]
  have hd2 := dtoi_prefix p hp
  simp only [ParseCIDR, hdata, hsplit, hparse, hd2, Addr.BitLen]
  simp [hp, parsedCIDR4]

/-- The handler on `info` and the text `a.b.c.d/p` runs `getIPInfo` on
`parsedCIDR4 [a, b, c, d] p`, and on `netmask` runs `getNetmask`. -/
theorem ipcalcHandler_dotted (a b c d p : Nat)
    (ha : a < 256) (hb : b < 256) (hc : c < 256) (hd : d < 256) (hp : p ≤ 32) :
    ipcalcHandler (request "info" (string4 [a, b, c, d] ++ "/" ++ fmtD p))
      = getIPInfo (parsedCIDR4 [a, b, c, d] p).1 (parsedCIDR4 [a, b, c, d] p).2 ∧
    ipcalcHandler (request "netmask" (string4 [a, b, c, d] ++ "/" ++ fmtD p))
      = getNetmask (parsedCIDR4 [a, b, c, d] p).2 := by
  constructor
  · rw [ipcalcHandler_strings _ "info" _ rfl rfl, ParseCIDR_dotted a b c d p ha hb hc hd hp]
    rfl
  · rw [ipcalcHandler_strings _ "netmask" _ rfl rfl, ParseCIDR_dotted a b c d p ha hb hc hd hp]
    rfl

/-! # Claims -/

/-- C1: for every IPv4 input `a.b.c.d/p` with `p <= 32`, `getIPInfo` returns a
report whose first line is `IP Address: a.b.c.d` (the address unchanged) and
whose second line is `Network: n/p`, where the network bytes `n` are the
byte-wise AND of the address with the `/p` mask. -/
theorem info_reports_address_and_network (a b c d p : Nat)
    (_ha : a < 256) (_hb : b < 256) (_hc : c < 256) (_hd : d < 256) (hp : p ≤ 32) :
    ∃ text, getIPInfo (parsedCIDR4 [a, b, c, d] p).1 (parsedCIDR4 [a, b, c, d] p).2
        = Except.ok (some (CallToolResult.mk text), none) ∧
      (reportLines text)[0]? =
        some ("IP Address: " ++ fmtD a ++ "." ++ fmtD b ++ "." ++ fmtD c ++ "." ++ fmtD d) ∧
      (reportLines text)[1]? =
        some ("Network: " ++ string4 (parsedCIDR4 [a, b, c, d] p).2.IP ++ "/" ++ fmtD p) ∧
      (parsedCIDR4 [a, b, c, d] p).2.Mask = CIDRMask p 32 ∧
      (CIDRMask p 32).length = 4 ∧
      (parsedCIDR4 [a, b, c, d] p).2.IP =
        List.zipWith (fun x m => x &&& m) [a, b, c, d] (CIDRMask p 32) := by
  have hlen : (CIDRMask p 32).length = 4 := by
    obtain ⟨m0, m1, m2, m3, hm, -⟩ := CIDRMask_shape p hp
    simp [hm]
  have hnet := parsedCIDR4_snd a b c d p hp
  rcases Nat.lt_or_eq_of_le hp with hlt | rfl
  · obtain ⟨text, h, hl⟩ := info_lines_lt a b c d p hlt
    refine ⟨text, h, ?_, ?_, ?_, hlen, ?_⟩
    · rw [hl]; rfl
    · rw [hl, hnet]; rfl
    · rw [hnet]
    · rw [hnet]
  · obtain ⟨text, h, hl⟩ := info_lines_32 a b c d
    refine ⟨text, h, ?_, ?_, ?_, hlen, ?_⟩
    · rw [hl]; rfl
    · rw [hl, hnet]; rfl
    · rw [hnet]
    · rw [hnet]

/-- C1 at `192.168.1.1/24`: the report starts with `IP Address: 192.168.1.1`
and `Network: 192.168.1.0/24`. -/
theorem info_reports_address_and_network_witness :
    (192 < 256 ∧ 168 < 256 ∧ 1 < 256 ∧ 24 ≤ 32) ∧
    ∃ text, getIPInfo (parsedCIDR4 [192, 168, 1, 1] 24).1 (parsedCIDR4 [192, 168, 1, 1] 24).2
        = Except.ok (some (CallToolResult.mk text), none) ∧
      (reportLines text)[0]? = some "IP Address: 192.168.1.1" ∧
      (reportLines text)[1]? = some "Network: 192.168.1.0/24" ∧
      (parsedCIDR4 [192, 168, 1, 1] 24).2.IP = [192, 168, 1, 0] :=
  ⟨by decide,
    let ⟨text, h, h0, h1, _, _, hnet⟩ := info_reports_address_and_network 192 168 1 1 24
      (by decide) (by decide) (by decide) (by decide) (by decide)
    ⟨text, h, h0, h1, hnet⟩⟩

/-- C2: for every IPv4 input with `p < 32`, the fourth line of the report of
`getIPInfo` is `Broadcast: x` where each octet of `x` is
`network[i] | (0xFF ^ mask[i])`. -/
theorem info_broadcast_octets (a b c d p : Nat)
    (_ha : a < 256) (_hb : b < 256) (_hc : c < 256) (_hd : d < 256) (hp : p < 32) :
    ∃ text broadcast,
      getIPInfo (parsedCIDR4 [a, b, c, d] p).1 (parsedCIDR4 [a, b, c, d] p).2
        = Except.ok (some (CallToolResult.mk text), none) ∧
      (reportLines text)[3]? = some ("Broadcast: " ++ string4 broadcast) ∧
      broadcast.length = 4 ∧
      broadcast = List.zipWith (fun n m => n ||| (0xFF ^^^ m))
        (parsedCIDR4 [a, b, c, d] p).2.IP (parsedCIDR4 [a, b, c, d] p).2.Mask := by
  obtain ⟨text, h, hl⟩ := info_lines_lt a b c d p hp
  obtain ⟨m0, m1, m2, m3, hm, h0, h1, h2, h3⟩ := CIDRMask_shape p (Nat.le_of_lt hp)
  have hnet := parsedCIDR4_snd a b c d p (Nat.le_of_lt hp)
  refine ⟨text, _, h, ?_, ?_, rfl⟩
  · rw [hl, hnet]
    simp only [hm, List.zipWith]
    rw [broadcast_byte _ _ (and_byte a _ h0) h0,
      broadcast_byte _ _ (and_byte b _ h1) h1,
      broadcast_byte _ _ (and_byte c _ h2) h2,
      broadcast_byte _ _ (and_byte d _ h3) h3]
    rfl
  · rw [hnet]; simp [hm]

/-- C2 at `10.0.0.0/30`: the broadcast line is `Broadcast: 10.0.0.3`. -/
theorem info_broadcast_octets_witness :
    (10 < 256 ∧ 0 < 256 ∧ 30 < 32) ∧
    ∃ text, getIPInfo (parsedCIDR4 [10, 0, 0, 0] 30).1 (parsedCIDR4 [10, 0, 0, 0] 30).2
        = Except.ok (some (CallToolResult.mk text), none) ∧
      (reportLines text)[3]? = some "Broadcast: 10.0.0.3" :=
  ⟨by decide,
    let ⟨text, _, h, hline, _, hb⟩ := info_broadcast_octets 10 0 0 0 30
      (by decide) (by decide) (by decide) (by decide) (by decide)
    ⟨text, h, by rw [hline, hb]; rfl⟩⟩

/-- C3: for every IPv4 prefix length `p < 32`, the shift `1 << (32 - p)` and its
conversion to `float64` are exact, the host count is `max(2^(32-p) - 2, 0)`, it
is not negative, and the sixth line of the report of `getIPInfo` is
`Usable Hosts: ` followed by the decimal digits of that integer; in particular
0 for `/31`, 2 for `/30`, 254 for `/24`, 65534 for `/16`, 4294967294 for `/0`. -/
theorem info_usable_hosts_exact (a b c d p : Nat)
    (_ha : a < 256) (_hb : b < 256) (_hc : c < 256) (_hd : d < 256) (hp : p < 32) :
    shl64 1 (32 - p) = 2 ^ (32 - p) ∧
    float64OfUint64 (shl64 1 (32 - p)) = (2 : Int) ^ (32 - p) ∧
    totalHosts (IPMask.Size (CIDRMask p 32)).1 (IPMask.Size (CIDRMask p 32)).2
      = max ((2 : Int) ^ (32 - p) - 2) 0 ∧
    0 ≤ totalHosts (IPMask.Size (CIDRMask p 32)).1 (IPMask.Size (CIDRMask p 32)).2 ∧
    ∃ text, getIPInfo (parsedCIDR4 [a, b, c, d] p).1 (parsedCIDR4 [a, b, c, d] p).2
        = Except.ok (some (CallToolResult.mk text), none) ∧
      (reportLines text)[5]? =
        some ("Usable Hosts: " ++ fmtD (Int.toNat (max ((2 : Int) ^ (32 - p) - 2) 0))) ∧
      (p = 31 → (reportLines text)[5]? = some "Usable Hosts: 0") ∧
      (p = 30 → (reportLines text)[5]? = some "Usable Hosts: 2") ∧
      (p = 24 → (reportLines text)[5]? = some "Usable Hosts: 254") ∧
      (p = 16 → (reportLines text)[5]? = some "Usable Hosts: 65534") ∧
      (p = 0 → (reportLines text)[5]? = some "Usable Hosts: 4294967294") := by
  obtain ⟨text, h, hl⟩ := info_lines_lt a b c d p hp
  have hs := Size_CIDRMask p (Nat.le_of_lt hp)
  have hn : Int.toNat (max ((2 : Int) ^ (32 - p) - 2) 0) = 2 ^ (32 - p) - 2 := by
    interval_cases p <;> rfl
  refine ⟨?_, ?_, ?_, ?_, text, h, ?_, ?_, ?_, ?_, ?_, ?_⟩
  · interval_cases p <;> rfl
  · interval_cases p <;> rfl
  · rw [hs]; interval_cases p <;> rfl
  · rw [hs]; interval_cases p <;> decide
  · rw [hl, hn]; rfl
  · rintro rfl; rw [hl]; rfl
  · rintro rfl; rw [hl]; rfl
  · rintro rfl; rw [hl]; rfl
  · rintro rfl; rw [hl]; rfl
  · rintro rfl; rw [hl]; rfl

/-- C3 at `192.168.1.0/24`: `Usable Hosts: 254`. -/
theorem info_usable_hosts_exact_witness :
    (192 < 256 ∧ 168 < 256 ∧ 1 < 256 ∧ 0 < 256 ∧ 24 < 32) ∧
    ∃ text, getIPInfo (parsedCIDR4 [192, 168, 1, 0] 24).1 (parsedCIDR4 [192, 168, 1, 0] 24).2
        = Except.ok (some (CallToolResult.mk text), none) ∧
      (reportLines text)[5]? = some "Usable Hosts: 254" :=
  ⟨by decide,
    let ⟨text, h, _, _, _, h24, _, _⟩ := (info_usable_hosts_exact 192 168 1 0 24
      (by decide) (by decide) (by decide) (by decide) (by decide)).2.2.2.2
    ⟨text, h, h24 rfl⟩⟩

/-- C4: the report of `getIPInfo` for an IPv4 input has one of two shapes, told
apart by `p == 32`.  For `p = 32` the text contains neither `Broadcast:` nor
`Usable Hosts:` and has the line `Hosts/Net: 1`; for `p < 32` it has a line
starting with `Broadcast:` and one starting with `Usable Hosts:`, and the text
does not contain `Hosts/Net:`. -/
theorem info_report_shape (a b c d p : Nat)
    (_ha : a < 256) (_hb : b < 256) (_hc : c < 256) (_hd : d < 256) (hp : p ≤ 32) :
    ∃ text, getIPInfo (parsedCIDR4 [a, b, c, d] p).1 (parsedCIDR4 [a, b, c, d] p).2
        = Except.ok (some (CallToolResult.mk text), none) ∧
      (p = 32 → ¬ contains text "Broadcast:" ∧ ¬ contains text "Usable Hosts:" ∧
        "Hosts/Net: 1" ∈ reportLines text) ∧
      (p < 32 → hasLineWithPrefix text "Broadcast:" ∧ hasLineWithPrefix text "Usable Hosts:" ∧
        ¬ contains text "Hosts/Net:") := by
  rcases Nat.lt_or_eq_of_le hp with hlt | rfl
  · obtain ⟨text, h, hl⟩ := info_lines_lt a b c d p hlt
    refine ⟨text, h, fun e => absurd e (Nat.ne_of_lt hlt), fun _ => ⟨?_, ?_, ?_⟩⟩
    · have key : ∀ X, ("Broadcast: " ++ X) ∈ reportLines text →
          hasLineWithPrefix text "Broadcast:" :=
        fun X hX => hasLine_of_mem text "Broadcast:" " " "Broadcast: " X (by decide) hX
      apply key
      rw [hl]; simp only [List.mem_cons]; right; right; right; left; rfl
    · have key : ∀ X, ("Usable Hosts: " ++ X) ∈ reportLines text →
          hasLineWithPrefix text "Usable Hosts:" :=
        fun X hX => hasLine_of_mem text "Usable Hosts:" " " "Usable Hosts: " X (by decide) hX
      apply key
      rw [hl]; simp only [List.mem_cons]; right; right; right; right; right; left; rfl
    · intro hc
      obtain ⟨l, hmem, hin⟩ := contains_some_line text "Hosts/Net:" (by decide) hc
      rw [hl] at hmem
      obtain ⟨m0, m1, m2, m3, hm, -⟩ := CIDRMask_shape p (Nat.le_of_lt hlt)
      simp only [hm, List.zipWith, List.mem_cons, List.mem_singleton, List.not_mem_nil,
        or_false] at hmem
      rcases hmem with rfl | rfl | rfl | rfl | rfl | rfl | rfl
      · exact not_infix_of_not_mem _ _ 'H' (by decide)
          (by simp [mem_data_append, string4_not_mem, fmtD_not_mem]) hin
      · exact not_infix_of_not_mem _ _ 'H' (by decide)
          (by simp [mem_data_append, string4_not_mem, fmtD_not_mem]) hin
      · exact not_infix_of_not_mem _ _ 'H' (by decide)
          (by simp [mem_data_append, string4_not_mem, fmtD_not_mem]) hin
      · exact not_infix_of_not_mem _ _ 'H' (by decide)
          (by simp [mem_data_append, string4_not_mem, fmtD_not_mem]) hin
      · exact not_infix_of_not_mem _ _ 'H' (by decide)
          (by simp [mem_data_append, string4_not_mem, fmtD_not_mem]) hin
      · exact not_infix_of_not_mem _ _ '/' (by decide)
          (by simp [mem_data_append, string4_not_mem, fmtD_not_mem]) hin
      · exact not_infix_of_not_mem _ _ 'H' (by decide) (by decide) hin
  · obtain ⟨text, h, hl⟩ := info_lines_32 a b c d
    have hm : CIDRMask 32 32 = [255, 255, 255, 255] := rfl
    simp only [hm, List.zipWith] at hl
    refine ⟨text, h, fun _ => ⟨?_, ?_, ?_⟩, fun e => absurd e (Nat.lt_irrefl 32)⟩
    · intro hc
      obtain ⟨l, hmem, hin⟩ := contains_some_line text "Broadcast:" (by decide) hc
      rw [hl] at hmem
      simp only [List.mem_cons, List.mem_singleton, List.not_mem_nil, or_false] at hmem
      rcases hmem with rfl | rfl | rfl | rfl | rfl | rfl <;>
        exact not_infix_of_not_mem _ _ 'B' (by decide)
          (by simp [mem_data_append, string4_not_mem, fmtD_not_mem]) hin
    · intro hc
      obtain ⟨l, hmem, hin⟩ := contains_some_line text "Usable Hosts:" (by decide) hc
      rw [hl] at hmem
      simp only [List.mem_cons, List.mem_singleton, List.not_mem_nil, or_false] at hmem
      rcases hmem with rfl | rfl | rfl | rfl | rfl | rfl <;>
        exact not_infix_of_not_mem _ _ 'U' (by decide)
          (by simp [mem_data_append, string4_not_mem, fmtD_not_mem]) hin
    · rw [hl]; simp

/-- C4 at `192.168.1.1/32`: no `Broadcast:`, no `Usable Hosts:`, and the line
`Hosts/Net: 1`. -/
theorem info_report_shape_witness :
    (192 < 256 ∧ 168 < 256 ∧ 1 < 256 ∧ 32 ≤ 32) ∧
    ∃ text, getIPInfo (parsedCIDR4 [192, 168, 1, 1] 32).1 (parsedCIDR4 [192, 168, 1, 1] 32).2
        = Except.ok (some (CallToolResult.mk text), none) ∧
      ¬ contains text "Broadcast:" ∧ ¬ contains text "Usable Hosts:" ∧
        "Hosts/Net: 1" ∈ reportLines text :=
  ⟨by decide,
    let ⟨text, h, h32, _⟩ := info_report_shape 192 168 1 1 32
      (by decide) (by decide) (by decide) (by decide) (by decide)
    ⟨text, h, h32 rfl⟩⟩

/-- C5: for every IPv4 prefix length `p <= 32`, the second line of the report
of `getNetmask` is `Netmask: <dotted mask> = g0.g1.g2.g3` where each of the four
groups has exactly 8 characters and their concatenation, 32 characters long, is
`p` characters `1` followed by `32 - p` characters `0`, hence holds exactly `p`
characters `1`. -/
theorem netmask_binary_groups (a b c d p : Nat)
    (_ha : a < 256) (_hb : b < 256) (_hc : c < 256) (_hd : d < 256) (hp : p ≤ 32) :
    ∃ text g0 g1 g2 g3, getNetmask (parsedCIDR4 [a, b, c, d] p).2
        = Except.ok (some (CallToolResult.mk text), none) ∧
      (reportLines text)[1]? = some ("Netmask: " ++ string4 (CIDRMask p 32) ++ " = "
        ++ (g0 ++ "." ++ g1 ++ "." ++ g2 ++ "." ++ g3)) ∧
      g0.length = 8 ∧ g1.length = 8 ∧ g2.length = 8 ∧ g3.length = 8 ∧
      (g0 ++ g1 ++ g2 ++ g3).data = List.replicate p '1' ++ List.replicate (32 - p) '0' ∧
      (g0 ++ g1 ++ g2 ++ g3).length = 32 ∧
      (g0 ++ g1 ++ g2 ++ g3).data.count '1' = p ∧
      (p = 20 → (reportLines text)[1]? =
        some "Netmask: 255.255.240.0 = 11111111.11111111.11110000.00000000") := by
  obtain ⟨text, h, hl⟩ := netmask_lines a b c d p hp
  obtain ⟨l0, l1, l2, l3, hcat, hlen, hcount⟩ := binChunk_facts p hp
  refine ⟨text, binChunk p 0, binChunk p 1, binChunk p 2, binChunk p 3, h, ?_,
    l0, l1, l2, l3, hcat, hlen, hcount, ?_⟩
  · rw [hl]; rfl
  · rintro rfl; rw [hl]; rfl

/-- C5 at `/20`: the binary netmask is `11111111.11111111.11110000.00000000`. -/
theorem netmask_binary_groups_witness :
    (10 < 256 ∧ 0 < 256 ∧ 20 ≤ 32) ∧
    ∃ text, getNetmask (parsedCIDR4 [10, 0, 0, 0] 20).2
        = Except.ok (some (CallToolResult.mk text), none) ∧
      (reportLines text)[1]? =
        some "Netmask: 255.255.240.0 = 11111111.11111111.11110000.00000000" :=
  ⟨by decide,
    let ⟨text, _, _, _, _, h, _, _, _, _, _, _, _, _, h20⟩ := netmask_binary_groups 10 0 0 0 20
      (by decide) (by decide) (by decide) (by decide) (by decide)
    ⟨text, h, h20 rfl⟩⟩

/-- C6: for every mask made of bytes, `wildcardMask` returns a list of the same
length whose entry `i` is the decimal rendering of the bitwise complement `w`
of mask byte `i`; reading the entry back as a number gives `w`, with
`w + mask[i] = 255` and `w <= 255`.  The masks `/24`, `/20` and `/27` give
`0,0,0,255`, `0,0,15,255` and `0,0,0,31`. -/
theorem wildcardMask_complement (mask : IPMask) (hb : ∀ b ∈ mask, b < 256) :
    (wildcardMask mask).length = mask.length ∧
    (∀ i (hi : i < mask.length), ∃ w,
      (wildcardMask mask)[i]? = some (fmtD w) ∧
      w = 0xFF ^^^ mask[i] ∧
      parseNat 10 (fmtD w) = some w ∧
      w + mask[i] = 255 ∧ w ≤ 255) ∧
    wildcardMask (CIDRMask 24 32) = ["0", "0", "0", "255"] ∧
    wildcardMask (CIDRMask 20 32) = ["0", "0", "15", "255"] ∧
    wildcardMask (CIDRMask 27 32) = ["0", "0", "0", "31"] := by
  refine ⟨by simp [wildcardMask], ?_, by decide, by decide, by decide⟩
  intro i hi
  have hlt : mask[i] < 256 := hb _ (List.getElem_mem hi)
  obtain ⟨h1, h2, h3, h4⟩ := wildcard_byte_facts mask[i] hlt
  refine ⟨0xFF ^^^ mask[i], ?_, rfl, h2, h3, h4⟩
  simp only [wildcardMask, List.getElem?_map, List.getElem?_eq_getElem hi, Option.map_some']
  rw [h1]

/-- C6 at the mask `/20`: four entries, entry 2 is `15` and `15 + 240 = 255`. -/
theorem wildcardMask_complement_witness :
    (∀ b ∈ CIDRMask 20 32, b < 256) ∧
    (wildcardMask (CIDRMask 20 32)).length = (CIDRMask 20 32).length ∧
    wildcardMask (CIDRMask 20 32) = ["0", "0", "15", "255"] :=
  ⟨by decide,
    (wildcardMask_complement (CIDRMask 20 32) (by decide)).1,
    (wildcardMask_complement (CIDRMask 20 32) (by decide)).2.2.2.1⟩

/-- C7: for every IPv4 prefix length `p <= 32`, the fourth line of the report
of `getNetmask` is `Hex netmask: 0x` followed by exactly 8 characters, each in
`0-9` or `A-F`, and decoding them two at a time in base 16 gives back the 4
mask bytes in order; `/16`, `/27`, `/24` give `FFFF0000`, `FFFFFFE0`,
`FFFFFF00`. -/
theorem netmask_hex_roundtrip (a b c d p : Nat)
    (_ha : a < 256) (_hb : b < 256) (_hc : c < 256) (_hd : d < 256) (hp : p ≤ 32) :
    ∃ text hex, getNetmask (parsedCIDR4 [a, b, c, d] p).2
        = Except.ok (some (CallToolResult.mk text), none) ∧
      (reportLines text)[3]? = some ("Hex netmask: 0x" ++ hex) ∧
      hex.length = 8 ∧
      (∀ c ∈ hex.data, ('0' ≤ c ∧ c ≤ '9') ∨ ('A' ≤ c ∧ c ≤ 'F')) ∧
      decodeHexPairs hex.data = some (parsedCIDR4 [a, b, c, d] p).2.Mask ∧
      (p = 16 → hex = "FFFF0000") ∧ (p = 27 → hex = "FFFFFFE0") ∧
      (p = 24 → hex = "FFFFFF00") := by
  obtain ⟨text, h, hl⟩ := netmask_lines a b c d p hp
  obtain ⟨h1, h2, h3⟩ := hex_facts p hp
  refine ⟨text, join ((CIDRMask p 32).map fmt02X) "", h, ?_, h1, h2, ?_, ?_, ?_, ?_⟩
  · rw [hl]; rfl
  · rw [parsedCIDR4_snd _ _ _ _ _ hp]; exact h3
  · rintro rfl; decide
  · rintro rfl; decide
  · rintro rfl; decide

/-- C7 at `10.0.0.0/27`: the hex netmask line is `Hex netmask: 0xFFFFFFE0`. -/
theorem netmask_hex_roundtrip_witness :
    (10 < 256 ∧ 0 < 256 ∧ 27 ≤ 32) ∧
    ∃ text, getNetmask (parsedCIDR4 [10, 0, 0, 0] 27).2
        = Except.ok (some (CallToolResult.mk text), none) ∧
      (reportLines text)[3]? = some ("Hex netmask: 0x" ++ "FFFFFFE0") :=
  ⟨by decide,
    let ⟨text, _, h, hline, _, _, _, _, h27, _⟩ := netmask_hex_roundtrip 10 0 0 0 27
      (by decide) (by decide) (by decide) (by decide) (by decide)
    ⟨text, h, h27 rfl ▸ hline⟩⟩

/-- C8: for every prefix length `p <= 32`, the 4-byte mask built from `p`
(as a 32-bit big-endian number `2^32 - 2^(32-p)`: top `p` bits 1, the rest 0)
is read back by `Size` as `ones = p` and `bits = 32`, and in both reports the
line `Prefix: /p` is present and is the only line starting with `Prefix:`. -/
theorem prefix_length_roundtrip (a b c d p : Nat)
    (_ha : a < 256) (_hb : b < 256) (_hc : c < 256) (_hd : d < 256) (hp : p ≤ 32) :
    (CIDRMask p 32).length = 4 ∧
    beUint32 (CIDRMask p 32) = 2 ^ 32 - 2 ^ (32 - p) ∧
    IPMask.Size (CIDRMask p 32) = (p, 32) ∧
    (∃ text, getIPInfo (parsedCIDR4 [a, b, c, d] p).1 (parsedCIDR4 [a, b, c, d] p).2
        = Except.ok (some (CallToolResult.mk text), none) ∧
      ("Prefix: /" ++ fmtD p) ∈ reportLines text ∧
      ∀ l ∈ reportLines text, "Prefix:".data <+: l.data → l = "Prefix: /" ++ fmtD p) ∧
    (∃ text, getNetmask (parsedCIDR4 [a, b, c, d] p).2
        = Except.ok (some (CallToolResult.mk text), none) ∧
      ("Prefix: /" ++ fmtD p) ∈ reportLines text ∧
      ∀ l ∈ reportLines text, "Prefix:".data <+: l.data → l = "Prefix: /" ++ fmtD p) := by
  obtain ⟨m0, m1, m2, m3, hm, -⟩ := CIDRMask_shape p hp
  refine ⟨by simp [hm], CIDRMask_value p hp, Size_CIDRMask p hp, ?_, ?_⟩
  · rcases Nat.lt_or_eq_of_le hp with hlt | rfl
    · obtain ⟨text, h, hl⟩ := info_lines_lt a b c d p hlt
      refine ⟨text, h, by rw [hl]; simp, ?_⟩
      intro l hmem hpre
      rw [hl] at hmem
      simp only [hm, List.zipWith, List.mem_cons, List.mem_singleton, List.not_mem_nil,
        or_false] at hmem
      rcases hmem with rfl | rfl | rfl | rfl | rfl | rfl | rfl
      · exact absurd hpre.isInfix (not_infix_of_not_mem _ _ 'x' (by decide)
          (by simp [mem_data_append, string4_not_mem, fmtD_not_mem]))
      · exact absurd hpre.isInfix (not_infix_of_not_mem _ _ 'x' (by decide)
          (by simp [mem_data_append, string4_not_mem, fmtD_not_mem]))
      · exact absurd hpre.isInfix (not_infix_of_not_mem _ _ 'x' (by decide)
          (by simp [mem_data_append, string4_not_mem, fmtD_not_mem]))
      · exact absurd hpre.isInfix (not_infix_of_not_mem _ _ 'x' (by decide)
          (by simp [mem_data_append, string4_not_mem, fmtD_not_mem]))
      · rfl
      · exact absurd hpre.isInfix (not_infix_of_not_mem _ _ 'x' (by decide)
          (by simp [mem_data_append, string4_not_mem, fmtD_not_mem]))
      · exact absurd hpre.isInfix (not_infix_of_not_mem _ _ 'x' (by decide) (by decide))
    · obtain ⟨text, h, hl⟩ := info_lines_32 a b c d
      refine ⟨text, h, by rw [hl]; simp, ?_⟩
      intro l hmem hpre
      rw [hl] at hmem
      simp only [hm, List.zipWith, List.mem_cons, List.mem_singleton, List.not_mem_nil,
        or_false] at hmem
      rcases hmem with rfl | rfl | rfl | rfl | rfl | rfl
      · exact absurd hpre.isInfix (not_infix_of_not_mem _ _ 'x' (by decide)
          (by simp [mem_data_append, string4_not_mem, fmtD_not_mem]))
      · exact absurd hpre.isInfix (not_infix_of_not_mem _ _ 'x' (by decide)
          (by simp [mem_data_append, string4_not_mem, fmtD_not_mem]))
      · exact absurd hpre.isInfix (not_infix_of_not_mem _ _ 'x' (by decide)
          (by simp [mem_data_append, string4_not_mem, fmtD_not_mem]))
      · rfl
      · exact absurd hpre.isInfix (not_infix_of_not_mem _ _ 'x' (by decide) (by decide))
      · exact absurd hpre.isInfix (not_infix_of_not_mem _ _ 'x' (by decide) (by decide))
  · obtain ⟨text, h, hl⟩ := netmask_lines a b c d p hp
    refine ⟨text, h, by rw [hl]; simp, ?_⟩
    intro l hmem hpre
    rw [hl] at hmem
    simp only [List.mem_cons, List.mem_singleton, List.not_mem_nil, or_false] at hmem
    rcases hmem with rfl | rfl | rfl | rfl | rfl | rfl
    · simp only [hm, List.zipWith] at hpre
      exact absurd hpre.isInfix (not_infix_of_not_mem _ _ 'P' (by decide)
          (by simp [mem_data_append, string4_not_mem, fmtD_not_mem]))
    · exact absurd hpre.isInfix (not_infix_of_not_mem _ _ 'P' (by decide)
        (by clear hpre hm h hl; interval_cases p <;> decide))
    · exact absurd hpre.isInfix (not_infix_of_not_mem _ _ 'P' (by decide)
        (by clear hpre hm h hl; interval_cases p <;> decide))
    · exact absurd hpre.isInfix (not_infix_of_not_mem _ _ 'P' (by decide)
        (by clear hpre hm h hl; interval_cases p <;> decide))
    · rfl
    · exact absurd hpre.isInfix (not_infix_of_not_mem _ _ 'P' (by decide) (by decide))

/-- C8 at `172.16.0.0/16`: `Size` reads back `(16, 32)` and both reports have
the line `Prefix: /16`. -/
theorem prefix_length_roundtrip_witness :
    (172 < 256 ∧ 16 < 256 ∧ 0 < 256 ∧ 16 ≤ 32) ∧
    IPMask.Size (CIDRMask 16 32) = (16, 32) ∧
    (∃ text, getIPInfo (parsedCIDR4 [172, 16, 0, 0] 16).1 (parsedCIDR4 [172, 16, 0, 0] 16).2
        = Except.ok (some (CallToolResult.mk text), none) ∧
      ("Prefix: /" ++ fmtD 16) ∈ reportLines text) ∧
    (∃ text, getNetmask (parsedCIDR4 [172, 16, 0, 0] 16).2
        = Except.ok (some (CallToolResult.mk text), none) ∧
      ("Prefix: /" ++ fmtD 16) ∈ reportLines text) :=
  ⟨by decide,
    let ⟨_, _, hs, ⟨t1, h1, m1, _⟩, ⟨t2, h2, m2, _⟩⟩ := prefix_length_roundtrip 172 16 0 0 16
      (by decide) (by decide) (by decide) (by decide) (by decide)
    ⟨hs, ⟨t1, h1, m1⟩, ⟨t2, h2, m2⟩⟩⟩

/-- C9: for every IPv4 prefix length `p <= 32`, the mask is the canonical one
(as a 32-bit big-endian number `2^32 - 2^(32-p)`), and in the `Netmask:` line of
the report of `getNetmask` the `i`-th decimal octet, read in base 10, equals
the `i`-th 8-character binary group, read in base 2, for each of the 4 octets;
both equal mask byte `i`. -/
theorem netmask_decimal_matches_binary (a b c d p : Nat)
    (_ha : a < 256) (_hb : b < 256) (_hc : c < 256) (_hd : d < 256) (hp : p ≤ 32) :
    beUint32 (parsedCIDR4 [a, b, c, d] p).2.Mask = 2 ^ 32 - 2 ^ (32 - p) ∧
    ∃ text m0 m1 m2 m3 d0 d1 d2 d3 g0 g1 g2 g3,
      (parsedCIDR4 [a, b, c, d] p).2.Mask = [m0, m1, m2, m3] ∧
      getNetmask (parsedCIDR4 [a, b, c, d] p).2
        = Except.ok (some (CallToolResult.mk text), none) ∧
      (reportLines text)[1]? = some ("Netmask: " ++ (d0 ++ "." ++ d1 ++ "." ++ d2 ++ "." ++ d3)
        ++ " = " ++ (g0 ++ "." ++ g1 ++ "." ++ g2 ++ "." ++ g3)) ∧
      g0.length = 8 ∧ g1.length = 8 ∧ g2.length = 8 ∧ g3.length = 8 ∧
      (g0 ++ g1 ++ g2 ++ g3).data = List.replicate p '1' ++ List.replicate (32 - p) '0' ∧
      parseNat 10 d0 = some m0 ∧ parseNat 10 d1 = some m1 ∧
      parseNat 10 d2 = some m2 ∧ parseNat 10 d3 = some m3 ∧
      parseNat 2 g0 = parseNat 10 d0 ∧ parseNat 2 g1 = parseNat 10 d1 ∧
      parseNat 2 g2 = parseNat 10 d2 ∧ parseNat 2 g3 = parseNat 10 d3 := by
  obtain ⟨text, h, hl⟩ := netmask_lines a b c d p hp
  obtain ⟨m0, m1, m2, m3, hm, e0, e1, e2, e3, b0, b1, b2, b3⟩ := octet_group_facts p hp
  obtain ⟨l0, l1, l2, l3, hcat, -, -⟩ := binChunk_facts p hp
  have hmask : (parsedCIDR4 [a, b, c, d] p).2.Mask = CIDRMask p 32 := by
    rw [parsedCIDR4_snd _ _ _ _ _ hp]
  refine ⟨by rw [hmask]; exact CIDRMask_value p hp, text, m0, m1, m2, m3,
    fmtD m0, fmtD m1, fmtD m2, fmtD m3,
    binChunk p 0, binChunk p 1, binChunk p 2, binChunk p 3, by rw [hmask, hm], h, ?_,
    l0, l1, l2, l3, hcat, e0, e1, e2, e3, ?_, ?_, ?_, ?_⟩
  · rw [hl, hm]; rfl
  · rw [b0, e0]
  · rw [b1, e1]
  · rw [b2, e2]
  · rw [b3, e3]

/-- C9 at `10.0.0.0/20`: the line is
`Netmask: 255.255.240.0 = 11111111.11111111.11110000.00000000`, and the third
octet `240` is the third group `11110000` read in base 2. -/
theorem netmask_decimal_matches_binary_witness :
    (10 < 256 ∧ 0 < 256 ∧ 20 ≤ 32) ∧
    beUint32 (parsedCIDR4 [10, 0, 0, 0] 20).2.Mask = 2 ^ 32 - 2 ^ (32 - 20) ∧
    parseNat 10 "240" = parseNat 2 "11110000" :=
  ⟨by decide,
    (netmask_decimal_matches_binary 10 0 0 0 20
      (by decide) (by decide) (by decide) (by decide) (by decide)).1,
    by decide⟩

/-- C10: for every parsed IPv4 CIDR (any address value, a 4-byte network, the
canonical 4-byte mask of a prefix length `p <= 32`), `getIPInfo` and
`getNetmask` both return a result together with a `nil` error, without any
index or slice panic. -/
theorem operations_never_fail (ip network : IP) (p : Nat)
    (hlen : network.length = 4) (hp : p ≤ 32) :
    (∃ r, getIPInfo ip { IP := network, Mask := CIDRMask p 32 } = Except.ok (some r, none)) ∧
    (∃ r, getNetmask { IP := network, Mask := CIDRMask p 32 } = Except.ok (some r, none)) := by
  refine ⟨?_, ⟨_, getNetmask_eq network p hp⟩⟩
  match network, hlen with
  | [n0, n1, n2, n3], _ =>
    rcases Nat.lt_or_eq_of_le hp with hlt | rfl
    · exact ⟨_, getIPInfo_lt ip n0 n1 n2 n3 p hlt⟩
    · exact ⟨_, getIPInfo_32 ip n0 n1 n2 n3⟩

/-- C10 at `192.168.1.0/24`: both operations return a result and no error. -/
theorem operations_never_fail_witness :
    ([192, 168, 1, 0].length = 4 ∧ 24 ≤ 32) ∧
    (∃ r, getIPInfo [192, 168, 1, 7] { IP := [192, 168, 1, 0], Mask := CIDRMask 24 32 }
      = Except.ok (some r, none)) ∧
    (∃ r, getNetmask { IP := [192, 168, 1, 0], Mask := CIDRMask 24 32 }
      = Except.ok (some r, none)) :=
  ⟨by decide, operations_never_fail [192, 168, 1, 7] [192, 168, 1, 0] 24 (by decide) (by decide)⟩

/-- C11: for every `ip` string that `net.ParseCIDR` rejects and every operation
tag, the handler returns a `nil` result together with the error `Invalid IP
address format. Please use CIDR notation (e.g., 192.168.1.0/24)`; the message
names CIDR notation and gives an example.  A malformed address, a prefix out
of range, a missing slash, extra input and `not-an-ip` are all rejected. -/
theorem handler_rejects_invalid_cidr (arguments : Arguments) (op ipCIDR : String)
    (hop : arguments "operation" = some (ArgValue.string op))
    (hip : arguments "ip" = some (ArgValue.string ipCIDR))
    (hbad : ParseCIDR ipCIDR = none) :
    ipcalcHandler arguments = Except.ok (none, some (GoError.mk
      "Invalid IP address format. Please use CIDR notation (e.g., 192.168.1.0/24)")) ∧
    contains "Invalid IP address format. Please use CIDR notation (e.g., 192.168.1.0/24)"
      "CIDR notation" ∧
    contains "Invalid IP address format. Please use CIDR notation (e.g., 192.168.1.0/24)"
      "(e.g., 192.168.1.0/24)" ∧
    ParseCIDR "not-an-ip" = none ∧ ParseCIDR "256.1.1.1/24" = none ∧
    ParseCIDR "192.168.1.0/33" = none ∧ ParseCIDR "192.168.1.0" = none ∧
    ParseCIDR "192.168.1.0/24x" = none := by
  refine ⟨?_, by decide, by decide, by decide, by decide, by decide, by decide, by decide⟩
  rw [ipcalcHandler_strings arguments op ipCIDR hop hip, hbad]
  rfl

/-- C11 at `info("not-an-ip")`: the handler returns the CIDR-format error. -/
theorem handler_rejects_invalid_cidr_witness :
    ParseCIDR "not-an-ip" = none ∧
    ipcalcHandler (request "info" "not-an-ip") = Except.ok (none, some (GoError.mk
      "Invalid IP address format. Please use CIDR notation (e.g., 192.168.1.0/24)")) :=
  ⟨by decide,
    (handler_rejects_invalid_cidr (request "info" "not-an-ip") "info" "not-an-ip"
      rfl rfl (by decide)).1⟩

/-- C12: for every operation tag other than `info` and `netmask` and every
`ip` string that `net.ParseCIDR` accepts, the handler returns a `nil` result
together with the error `Unknown operation`; `split` and the empty tag are
such tags. -/
theorem handler_unknown_operation (arguments : Arguments) (op ipCIDR : String)
    (ip : IP) (ipNet : IPNet)
    (hop : arguments "operation" = some (ArgValue.string op))
    (hip : arguments "ip" = some (ArgValue.string ipCIDR))
    (hok : ParseCIDR ipCIDR = some (ip, ipNet))
    (hinfo : op ≠ "info") (hmask : op ≠ "netmask") :
    ipcalcHandler arguments = Except.ok (none, some (GoError.mk "Unknown operation")) ∧
    "split" ≠ "info" ∧ "split" ≠ "netmask" ∧ "" ≠ "info" ∧ "" ≠ "netmask" := by
  refine ⟨?_, by decide, by decide, by decide, by decide⟩
  rw [ipcalcHandler_strings arguments op ipCIDR hop hip, hok]
  simp only [hinfo, hmask, if_false]

/-- C12 at `split` on `192.168.1.0/24`: the handler returns `Unknown operation`. -/
theorem handler_unknown_operation_witness :
    ParseCIDR "192.168.1.0/24" = some (parsedCIDR4 [192, 168, 1, 0] 24) ∧
    ipcalcHandler (request "split" "192.168.1.0/24")
      = Except.ok (none, some (GoError.mk "Unknown operation")) ∧
    ipcalcHandler (request "" "192.168.1.0/24")
      = Except.ok (none, some (GoError.mk "Unknown operation")) :=
  ⟨by decide,
    (handler_unknown_operation (request "split" "192.168.1.0/24") "split" "192.168.1.0/24"
      _ _ rfl rfl (by decide : ParseCIDR "192.168.1.0/24" = some (parsedCIDR4 [192, 168, 1, 0] 24))
      (by decide) (by decide)).1,
    (handler_unknown_operation (request "" "192.168.1.0/24") "" "192.168.1.0/24"
      _ _ rfl rfl (by decide : ParseCIDR "192.168.1.0/24" = some (parsedCIDR4 [192, 168, 1, 0] 24))
      (by decide) (by decide)).1⟩

/-- C14, counterexample: a request with `operation = "info"` and no `ip`
argument, and one whose `ip` is the number 42, do not get the CIDR-format
error; the handler panics at the type assertion. -/
theorem handler_missing_ip_counterexample :
    ipcalcHandler (fun key => if key = "operation" then some (ArgValue.string "info") else none)
      = Except.error RuntimeError.interfaceConversion ∧
    ipcalcHandler (fun key => if key = "operation" then some (ArgValue.string "info") else none)
      ≠ Except.ok (none, some (GoError.mk
        "Invalid IP address format. Please use CIDR notation (e.g., 192.168.1.0/24)")) ∧
    ipcalcHandler (fun key => if key = "operation" then some (ArgValue.string "info")
        else if key = "ip" then some (ArgValue.number 42) else none)
      = Except.error RuntimeError.interfaceConversion := by
  refine ⟨rfl, ?_, rfl⟩
  intro h
  have h2 : ipcalcHandler
      (fun key => if key = "operation" then some (ArgValue.string "info") else none)
      = Except.error RuntimeError.interfaceConversion := rfl
  rw [h2] at h
  exact Except.noConfusion h

/-- C14, amended: for every request in which the `ip` argument is absent or is
not a string, the handler returns neither a result nor an error value: a type
assertion `.(string)` panics.  The CIDR-format error is what a request gets
whose `ip` is a string that `net.ParseCIDR` rejects. -/
theorem handler_missing_ip_panics (arguments : Arguments)
    (hip : ∀ s, arguments "ip" ≠ some (ArgValue.string s)) :
    ipcalcHandler arguments = Except.error RuntimeError.interfaceConversion ∧
    ∀ op s, ParseCIDR s = none → ipcalcHandler (request op s) = Except.ok (none,
      some (GoError.mk
        "Invalid IP address format. Please use CIDR notation (e.g., 192.168.1.0/24)")) := by
  refine ⟨?_, fun op s hbad => by
    rw [ipcalcHandler_strings (request op s) op s rfl rfl, hbad]; rfl⟩
  unfold ipcalcHandler
  cases hop : arguments "operation" with
  | none => rfl
  | some v =>
    cases v with
    | string op =>
      cases hv : arguments "ip" with
      | none => rfl
      | some w =>
        cases w with
        | string s => exact absurd hv (hip s)
        | null => rfl
        | bool b => rfl
        | number x => rfl
        | array => rfl
        | object => rfl
    | null => rfl
    | bool b => rfl
    | number x => rfl
    | array => rfl
    | object => rfl

/-- C14, amended, at a request with `operation = "netmask"` and `ip = null`. -/
theorem handler_missing_ip_panics_witness :
    (∀ s, (fun key => if key = "operation" then some (ArgValue.string "netmask")
        else if key = "ip" then some ArgValue.null else none) "ip" ≠ some (ArgValue.string s)) ∧
    ipcalcHandler (fun key => if key = "operation" then some (ArgValue.string "netmask")
        else if key = "ip" then some ArgValue.null else none)
      = Except.error RuntimeError.interfaceConversion :=
  ⟨fun s h => by simp at h,
    (handler_missing_ip_panics _ (fun s h => by simp at h)).1⟩

/-- C13, counterexample: the parse step accepts the IPv6 texts `::1/128` and
`2001:db8::/48` (prefix lengths above 32, 16-byte masks), and the handler
answers `info` on them with a report instead of the CIDR-format error. -/
theorem parse_accepts_ipv6_counterexample :
    ParseCIDR "::1/128" = some
      ([0, 0, 0, 0, 0, 0, 0, 0, 0, 0, 0, 0, 0, 0, 0, 1],
        { IP := [0, 0, 0, 0, 0, 0, 0, 0, 0, 0, 0, 0, 0, 0, 0, 1], Mask := CIDRMask 128 128 }) ∧
    IPMask.Size (CIDRMask 128 128) = (128, 128) ∧
    ipcalcHandler (request "info" "::1/128") = Except.ok (some (CallToolResult.mk
      "IP Address: ::1\nNetwork: ::1/128\nNetmask: 255.255.255.255\nPrefix: /128\nHosts/Net: 1\n"),
      none) ∧
    ParseCIDR "2001:db8::/48" = some
      ([0x20, 0x01, 0x0d, 0xb8, 0, 0, 0, 0, 0, 0, 0, 0, 0, 0, 0, 0],
        { IP := [0x20, 0x01, 0x0d, 0xb8, 0, 0, 0, 0, 0, 0, 0, 0, 0, 0, 0, 0],
          Mask := CIDRMask 48 128 }) ∧
    ipcalcHandler (request "info" "2001:db8::/48") ≠ Except.ok (none, some (GoError.mk
      "Invalid IP address format. Please use CIDR notation (e.g., 192.168.1.0/24)")) := by
  refine ⟨by decide, by decide, rfl, by decide, ?_⟩
  have h : ipcalcHandler (request "info" "2001:db8::/48") = Except.ok (some (CallToolResult.mk
      ("IP Address: 2001:db8::\nNetwork: 2001:db8::/48\nNetmask: 255.255.255.255\n" ++
       "Broadcast: 2001:db8:0:ffff:ffff:ffff:ffff:ffff\nPrefix: /48\nUsable Hosts: 0\n")),
      none) := rfl
  rw [h]
  intro e
  injection e with e
  injection e with e1 e2
  exact absurd e1 (by simp)

/-- C13, amended: the parse step accepts IPv4 and IPv6 input.  Every string is
either rejected, and then the handler returns the CIDR-format error for any
operation, or it is `addr/pfx` with `pfx` a decimal integer `p` and either
`addr` a dotted-quad IPv4 address `a.b.c.d` with `p` in `[0,32]`, or `addr` an
IPv6 address (it holds a `:`) with `p` in `[0,128]`.  The texts `::1/128` and
`2001:db8::/48` are accepted. -/
theorem parse_step_accepts_ipv4_or_ipv6 (s : String) :
    ((ParseCIDR s = none ∧ ∀ op, ipcalcHandler (request op s) = Except.ok (none,
      some (GoError.mk
        "Invalid IP address format. Please use CIDR notation (e.g., 192.168.1.0/24)"))) ∨
    (∃ ip ipNet addr pfx p, ParseCIDR s = some (ip, ipNet) ∧
      s = addr ++ "/" ++ pfx ∧ '/' ∉ addr.data ∧ parseNat 10 pfx = some p ∧
      ((∃ a b c d, a < 256 ∧ b < 256 ∧ c < 256 ∧ d < 256 ∧ addr = string4 [a, b, c, d] ∧
          p ≤ 32 ∧ (ip, ipNet) = parsedCIDR4 [a, b, c, d] p ∧
          IPMask.Size ipNet.Mask = (p, 32)) ∨
        (':' ∈ addr.data ∧ parseIPv6 addr.data = some (ip, []) ∧ p ≤ 128 ∧
          ipNet = { IP := IP.Mask ip (CIDRMask p 128), Mask := CIDRMask p 128 } ∧
          IPMask.Size ipNet.Mask = (p, 128))))) ∧
    (ParseCIDR "::1/128").isSome = true ∧ (ParseCIDR "2001:db8::/48").isSome = true := by
  refine ⟨?_, by decide, by decide⟩
  cases hparse : ParseCIDR s with
  | none =>
    left
    refine ⟨rfl, fun op => ?_⟩
    rw [ipcalcHandler_strings (request op s) op s rfl rfl, hparse]
    rfl
  | some r =>
    right
    obtain ⟨ip, ipNet⟩ := r
    obtain ⟨addr, pfx, p, hs, hno, hp, hcase⟩ := ParseCIDR_cases s ip ipNet hparse
    refine ⟨ip, ipNet, addr, pfx, p, rfl, hs, hno, hp, ?_⟩
    rcases hcase with ⟨a, b, c, d, ha, hb, hc, hd, haddr, hp32, hres⟩ | ⟨hcolon, h6, hp128, hnet⟩
    · left
      refine ⟨a, b, c, d, ha, hb, hc, hd, haddr, hp32, hres, ?_⟩
      have hm : ipNet.Mask = CIDRMask p 32 := by
        have := congrArg (fun x => x.2.Mask) hres
        simpa [parsedCIDR4] using this
      rw [hm]; exact Size_CIDRMask p hp32
    · right
      refine ⟨hcolon, h6, hp128, hnet, ?_⟩
      rw [hnet]; exact (Size_CIDRMask128 p hp128).1

/-- C15: for every IPv4 input with `p < 32`, with network and broadcast read as
32-bit big-endian integers, the number printed after `Usable Hosts: ` is
`broadcast - network - 1`, the count of addresses strictly between the two;
`2^(32-p) - 2` is not negative and taking the maximum with 0 leaves it
unchanged. -/
theorem info_hosts_between_network_and_broadcast (a b c d p : Nat)
    (ha : a < 256) (hb : b < 256) (hc : c < 256) (hd : d < 256) (hp : p < 32) :
    ∃ text network broadcast hosts,
      getIPInfo (parsedCIDR4 [a, b, c, d] p).1 (parsedCIDR4 [a, b, c, d] p).2
        = Except.ok (some (CallToolResult.mk text), none) ∧
      (reportLines text)[1]? = some ("Network: " ++ string4 network ++ "/" ++ fmtD p) ∧
      (reportLines text)[3]? = some ("Broadcast: " ++ string4 broadcast) ∧
      (reportLines text)[5]? = some ("Usable Hosts: " ++ fmtD hosts) ∧
      network = (parsedCIDR4 [a, b, c, d] p).2.IP ∧
      broadcast = List.zipWith (fun n m => n ||| (0xFF ^^^ m)) network
        (parsedCIDR4 [a, b, c, d] p).2.Mask ∧
      beUint32 network + 1 ≤ beUint32 broadcast ∧
      hosts = beUint32 broadcast - beUint32 network - 1 ∧
      (hosts : Int) = (2 : Int) ^ (32 - p) - 2 ∧
      (0 : Int) ≤ (2 : Int) ^ (32 - p) - 2 ∧
      max ((2 : Int) ^ (32 - p) - 2) 0 = (2 : Int) ^ (32 - p) - 2 ∧
      totalHosts (IPMask.Size (CIDRMask p 32)).1 (IPMask.Size (CIDRMask p 32)).2
        = (hosts : Int) := by
  obtain ⟨text, h, hl⟩ := info_lines_lt_bytes a b c d p hp
  obtain ⟨m0, m1, m2, m3, n0, n1, n2, n3, b0, b1, b2, b3, hm, hn, hbc, -, -, -, -, -, -, -,
    hsum, -⟩ := network_broadcast_values a b c d p ha hb hc hd (Nat.le_of_lt hp)
  have hk : 2 ≤ 2 ^ (32 - p) := by
    have : 2 ^ 1 ≤ 2 ^ (32 - p) := Nat.pow_le_pow_right (by decide) (by omega)
    simpa using this
  have hcast : ((2 ^ (32 - p) - 2 : Nat) : Int) = (2 : Int) ^ (32 - p) - 2 := by
    rw [Nat.cast_sub hk]; simp
  have hnn : (0 : Int) ≤ (2 : Int) ^ (32 - p) - 2 := by
    rw [← hcast]; exact Int.natCast_nonneg _
  have hmask : (parsedCIDR4 [a, b, c, d] p).2.Mask = [m0, m1, m2, m3] := by
    rw [parsedCIDR4_snd a b c d p (Nat.le_of_lt hp), hm]
  rw [hn, hm, hbc] at hl
  refine ⟨text, [n0, n1, n2, n3], [b0, b1, b2, b3], 2 ^ (32 - p) - 2, h, ?_, ?_, ?_, hn.symm,
    ?_, by omega, by omega, hcast, hnn, max_eq_left hnn, ?_⟩
  · rw [hl]; rfl
  · rw [hl]; rfl
  · rw [hl]; rfl
  · rw [hmask, hbc]
  · rw [Size_CIDRMask p (Nat.le_of_lt hp)]
    exact totalHosts_eq p hp

/-- C15 at `10.0.0.0/30`: network `10.0.0.0`, broadcast `10.0.0.3`, and
`Usable Hosts: 2`, the two addresses in between. -/
theorem info_hosts_between_network_and_broadcast_witness :
    (10 < 256 ∧ 0 < 256 ∧ 30 < 32) ∧
    ∃ text network broadcast hosts,
      getIPInfo (parsedCIDR4 [10, 0, 0, 0] 30).1 (parsedCIDR4 [10, 0, 0, 0] 30).2
        = Except.ok (some (CallToolResult.mk text), none) ∧
      (reportLines text)[1]? = some ("Network: " ++ string4 network ++ "/" ++ fmtD 30) ∧
      (reportLines text)[3]? = some ("Broadcast: " ++ string4 broadcast) ∧
      (reportLines text)[5]? = some ("Usable Hosts: " ++ fmtD hosts) ∧
      hosts = beUint32 broadcast - beUint32 network - 1 ∧
      (hosts : Int) = (2 : Int) ^ (32 - 30) - 2 :=
  ⟨by decide,
    let ⟨text, network, broadcast, hosts, h, h1, h3, h5, _, _, _, hh, hv, _⟩ :=
      info_hosts_between_network_and_broadcast 10 0 0 0 30
        (by decide) (by decide) (by decide) (by decide) (by decide)
    ⟨text, network, broadcast, hosts, h, h1, h3, h5, hh, hv⟩⟩

/-- C16: for every IPv4 input `a/p` with `p < 32`, with addresses read as 32-bit
big-endian integers: `network <= a <= broadcast`; the network has its `32 - p`
host bits 0 (`network & mask == network`); the broadcast has its host bits 1
and the top `p` bits of the network (`broadcast & mask == network`); and the
network of the reported network, and of the reported broadcast, with the same
prefix is the reported network again. -/
theorem info_network_broadcast_relations (a b c d p : Nat)
    (ha : a < 256) (hb : b < 256) (hc : c < 256) (hd : d < 256) (hp : p < 32) :
    ∃ text network broadcast mask,
      getIPInfo (parsedCIDR4 [a, b, c, d] p).1 (parsedCIDR4 [a, b, c, d] p).2
        = Except.ok (some (CallToolResult.mk text), none) ∧
      (reportLines text)[1]? = some ("Network: " ++ string4 network ++ "/" ++ fmtD p) ∧
      (reportLines text)[3]? = some ("Broadcast: " ++ string4 broadcast) ∧
      network = (parsedCIDR4 [a, b, c, d] p).2.IP ∧
      mask = (parsedCIDR4 [a, b, c, d] p).2.Mask ∧
      broadcast = List.zipWith (fun n m => n ||| (0xFF ^^^ m)) network mask ∧
      beUint32 network ≤ beUint32 [a, b, c, d] ∧
      beUint32 [a, b, c, d] ≤ beUint32 broadcast ∧
      List.zipWith (fun x m => x &&& m) network mask = network ∧
      List.zipWith (fun x m => x &&& (0xFF ^^^ m)) network mask = [0, 0, 0, 0] ∧
      beUint32 network % 2 ^ (32 - p) = 0 ∧
      List.zipWith (fun x m => x &&& m) broadcast mask = network ∧
      List.zipWith (fun x m => x &&& (0xFF ^^^ m)) broadcast mask
        = mask.map (fun m => 0xFF ^^^ m) ∧
      beUint32 broadcast % 2 ^ (32 - p) = 2 ^ (32 - p) - 1 ∧
      beUint32 broadcast / 2 ^ (32 - p) = beUint32 network / 2 ^ (32 - p) ∧
      (parsedCIDR4 network p).2.IP = network ∧
      (parsedCIDR4 broadcast p).2.IP = network := by
  obtain ⟨text, h, hl⟩ := info_lines_lt_bytes a b c d p hp
  have hz := network_host_bits_zero a b c d p ha hb hc hd (Nat.le_of_lt hp)
  obtain ⟨m0, m1, m2, m3, n0, n1, n2, n3, b0, b1, b2, b3, hm, hn, hbc, -, -, -, -, -, -, -,
    hsum, hle1, hle2, hand1, hand2, hw1, hw2⟩ :=
    network_broadcast_values a b c d p ha hb hc hd (Nat.le_of_lt hp)
  have hmask : (parsedCIDR4 [a, b, c, d] p).2.Mask = [m0, m1, m2, m3] := by
    rw [parsedCIDR4_snd a b c d p (Nat.le_of_lt hp), hm]
  have hpow : 0 < 2 ^ (32 - p) := Nat.pow_pos (by decide)
  rw [hn] at hz
  obtain ⟨hmod, hdiv⟩ := block_mod_div _ _ _ hpow hz hsum
  rw [hn, hm, hbc] at hl
  refine ⟨text, [n0, n1, n2, n3], [b0, b1, b2, b3], [m0, m1, m2, m3], h, ?_, ?_, hn.symm,
    hmask.symm, hbc.symm, hle1, hle2, hand1, hw2, hz, hand2, ?_, hmod, hdiv, ?_, ?_⟩
  · rw [hl]; rfl
  · rw [hl]; rfl
  · rw [hw1]; rfl
  · rw [parsedCIDR4_snd n0 n1 n2 n3 p (Nat.le_of_lt hp), hm]; exact hand1
  · rw [parsedCIDR4_snd b0 b1 b2 b3 p (Nat.le_of_lt hp), hm]; exact hand2

/-- C16 at `192.168.1.77/24`: network `192.168.1.0`, broadcast `192.168.1.255`,
and `3232235776 <= 3232235853 <= 3232236031`. -/
theorem info_network_broadcast_relations_witness :
    (192 < 256 ∧ 168 < 256 ∧ 1 < 256 ∧ 77 < 256 ∧ 24 < 32) ∧
    ∃ network broadcast,
      network = (parsedCIDR4 [192, 168, 1, 77] 24).2.IP ∧
      broadcast = List.zipWith (fun n m => n ||| (0xFF ^^^ m)) network
        (parsedCIDR4 [192, 168, 1, 77] 24).2.Mask ∧
      beUint32 network ≤ beUint32 [192, 168, 1, 77] ∧
      beUint32 [192, 168, 1, 77] ≤ beUint32 broadcast ∧
      (parsedCIDR4 network 24).2.IP = network ∧
      (parsedCIDR4 broadcast 24).2.IP = network :=
  ⟨by decide,
    let ⟨_, network, broadcast, _, _, _, _, hn, hm, hb, h1, h2, _, _, _, _, _, _, _, h3, h4⟩ :=
      info_network_broadcast_relations 192 168 1 77 24
        (by decide) (by decide) (by decide) (by decide) (by decide)
    ⟨network, broadcast, hn, hm ▸ hb, h1, h2, h3, h4⟩⟩

/-- C17: for every IPv4 input with `p < 32`, the third line of the report of
`getNetmask` is `Wildcard: w0.w1.w2.w3`, and the four octets, read back as
numbers and taken as one 32-bit big-endian integer `w`, satisfy
`w = 2^(32-p) - 1` and `broadcast = network + w` for the network and broadcast
that `getIPInfo` reports on the same input. -/
theorem wildcard_is_block_size (a b c d p : Nat)
    (ha : a < 256) (hb : b < 256) (hc : c < 256) (hd : d < 256) (hp : p < 32) :
    ∃ maskText infoText w0 w1 w2 w3 network broadcast,
      getNetmask (parsedCIDR4 [a, b, c, d] p).2
        = Except.ok (some (CallToolResult.mk maskText), none) ∧
      (reportLines maskText)[2]? =
        some ("Wildcard: " ++ (fmtD w0 ++ "." ++ fmtD w1 ++ "." ++ fmtD w2 ++ "." ++ fmtD w3)) ∧
      parseNat 10 (fmtD w0) = some w0 ∧ parseNat 10 (fmtD w1) = some w1 ∧
      parseNat 10 (fmtD w2) = some w2 ∧ parseNat 10 (fmtD w3) = some w3 ∧
      beUint32 [w0, w1, w2, w3] = 2 ^ (32 - p) - 1 ∧
      getIPInfo (parsedCIDR4 [a, b, c, d] p).1 (parsedCIDR4 [a, b, c, d] p).2
        = Except.ok (some (CallToolResult.mk infoText), none) ∧
      (reportLines infoText)[1]? = some ("Network: " ++ string4 network ++ "/" ++ fmtD p) ∧
      (reportLines infoText)[3]? = some ("Broadcast: " ++ string4 broadcast) ∧
      network = (parsedCIDR4 [a, b, c, d] p).2.IP ∧
      broadcast = List.zipWith (fun n m => n ||| (0xFF ^^^ m)) network
        (parsedCIDR4 [a, b, c, d] p).2.Mask ∧
      beUint32 broadcast = beUint32 network + beUint32 [w0, w1, w2, w3] := by
  obtain ⟨infoText, hi, hil⟩ := info_lines_lt_bytes a b c d p hp
  obtain ⟨maskText, hn, hnl⟩ := netmask_lines a b c d p (Nat.le_of_lt hp)
  obtain ⟨m0, m1, m2, m3, n0, n1, n2, n3, b0, b1, b2, b3, hm, hnet, hbc, hx, l0, l1, l2, l3,
    -, hw, hsum, -⟩ := network_broadcast_values a b c d p ha hb hc hd (Nat.le_of_lt hp)
  have hmask : (parsedCIDR4 [a, b, c, d] p).2.Mask = [m0, m1, m2, m3] := by
    rw [parsedCIDR4_snd a b c d p (Nat.le_of_lt hp), hm]
  have hwild : wildcardMask [m0, m1, m2, m3]
      = [fmtD (255 - m0), fmtD (255 - m1), fmtD (255 - m2), fmtD (255 - m3)] := by
    have e0 := (wildcard_byte_facts m0 (by omega)).1
    have e1 := (wildcard_byte_facts m1 (by omega)).1
    have e2 := (wildcard_byte_facts m2 (by omega)).1
    have e3 := (wildcard_byte_facts m3 (by omega)).1
    simp only [List.cons.injEq, and_true] at hx
    obtain ⟨x0, x1, x2, x3⟩ := hx
    simp only [wildcardMask, List.map]
    rw [e0, e1, e2, e3, x0, x1, x2, x3]
  rw [hnet, hm, hbc] at hil
  rw [hm, hwild] at hnl
  refine ⟨maskText, infoText, 255 - m0, 255 - m1, 255 - m2, 255 - m3, [n0, n1, n2, n3],
    [b0, b1, b2, b3], hn, ?_, byte_decimal_roundtrip _ (by omega),
    byte_decimal_roundtrip _ (by omega), byte_decimal_roundtrip _ (by omega),
    byte_decimal_roundtrip _ (by omega), by omega, hi, ?_, ?_, hnet.symm, ?_, by omega⟩
  · rw [hnl]; rfl
  · rw [hil]; rfl
  · rw [hil]; rfl
  · rw [hmask, hbc]

/-- C17 at `10.0.0.0/27`: the wildcard line is `Wildcard: 0.0.0.31`, and
`31 = 2^5 - 1`. -/
theorem wildcard_is_block_size_witness :
    (10 < 256 ∧ 0 < 256 ∧ 27 < 32) ∧
    ∃ maskText w0 w1 w2 w3,
      getNetmask (parsedCIDR4 [10, 0, 0, 0] 27).2
        = Except.ok (some (CallToolResult.mk maskText), none) ∧
      (reportLines maskText)[2]? =
        some ("Wildcard: " ++ (fmtD w0 ++ "." ++ fmtD w1 ++ "." ++ fmtD w2 ++ "." ++ fmtD w3)) ∧
      beUint32 [w0, w1, w2, w3] = 2 ^ (32 - 27) - 1 :=
  ⟨by decide,
    let ⟨maskText, _, w0, w1, w2, w3, _, _, h, hline, _, _, _, _, hw, _⟩ :=
      wildcard_is_block_size 10 0 0 0 27
        (by decide) (by decide) (by decide) (by decide) (by decide)
    ⟨maskText, w0, w1, w2, w3, h, hline, hw⟩⟩

/-- C18: for every IPv4 input, the dotted-decimal netmask that `getIPInfo`
prints after `Netmask: ` (built as `%d.%d.%d.%d` from `mask[0..3]`) is the same
string as the one `getNetmask` prints before ` = ` (built by joining the
`strconv.Itoa` of every mask byte with `.`); each of its 4 components is in
`0..255`; and both reports have the same line `Prefix: /p`. -/
theorem netmask_text_agrees (a b c d p : Nat)
    (_ha : a < 256) (_hb : b < 256) (_hc : c < 256) (_hd : d < 256) (hp : p ≤ 32) :
    ∃ infoText maskText m0 m1 m2 m3 binary,
      getIPInfo (parsedCIDR4 [a, b, c, d] p).1 (parsedCIDR4 [a, b, c, d] p).2
        = Except.ok (some (CallToolResult.mk infoText), none) ∧
      getNetmask (parsedCIDR4 [a, b, c, d] p).2
        = Except.ok (some (CallToolResult.mk maskText), none) ∧
      (parsedCIDR4 [a, b, c, d] p).2.Mask = [m0, m1, m2, m3] ∧
      (reportLines infoText)[2]? = some ("Netmask: " ++
        (fmtD m0 ++ "." ++ fmtD m1 ++ "." ++ fmtD m2 ++ "." ++ fmtD m3)) ∧
      (reportLines maskText)[1]? = some ("Netmask: " ++
        join ([m0, m1, m2, m3].map fmtD) "." ++ " = " ++ binary) ∧
      join ([m0, m1, m2, m3].map fmtD) "."
        = fmtD m0 ++ "." ++ fmtD m1 ++ "." ++ fmtD m2 ++ "." ++ fmtD m3 ∧
      '=' ∉ (fmtD m0 ++ "." ++ fmtD m1 ++ "." ++ fmtD m2 ++ "." ++ fmtD m3).data ∧
      ' ' ∉ (fmtD m0 ++ "." ++ fmtD m1 ++ "." ++ fmtD m2 ++ "." ++ fmtD m3).data ∧
      m0 ≤ 255 ∧ m1 ≤ 255 ∧ m2 ≤ 255 ∧ m3 ≤ 255 ∧
      parseNat 10 (fmtD m0) = some m0 ∧ parseNat 10 (fmtD m1) = some m1 ∧
      parseNat 10 (fmtD m2) = some m2 ∧ parseNat 10 (fmtD m3) = some m3 ∧
      ("Prefix: /" ++ fmtD p) ∈ reportLines infoText ∧
      ("Prefix: /" ++ fmtD p) ∈ reportLines maskText := by
  obtain ⟨maskText, hn, hnl⟩ := netmask_lines a b c d p hp
  obtain ⟨m0, m1, m2, m3, hm, h0, h1, h2, h3⟩ := CIDRMask_shape p hp
  have hmask : (parsedCIDR4 [a, b, c, d] p).2.Mask = [m0, m1, m2, m3] := by
    rw [parsedCIDR4_snd a b c d p hp, hm]
  have hinfo : ∃ infoText,
      getIPInfo (parsedCIDR4 [a, b, c, d] p).1 (parsedCIDR4 [a, b, c, d] p).2
        = Except.ok (some (CallToolResult.mk infoText), none) ∧
      (reportLines infoText)[2]? = some ("Netmask: " ++ string4 (CIDRMask p 32)) ∧
      ("Prefix: /" ++ fmtD p) ∈ reportLines infoText := by
    rcases Nat.lt_or_eq_of_le hp with hlt | rfl
    · obtain ⟨t, h, hl⟩ := info_lines_lt a b c d p hlt
      exact ⟨t, h, by rw [hl]; rfl, by rw [hl]; simp⟩
    · obtain ⟨t, h, hl⟩ := info_lines_32 a b c d
      exact ⟨t, h, by rw [hl]; rfl, by rw [hl]; simp⟩
  obtain ⟨infoText, hi, hi2, hipre⟩ := hinfo
  rw [hm] at hi2 hnl
  refine ⟨infoText, maskText, m0, m1, m2, m3,
    join [binChunk p 0, binChunk p 1, binChunk p 2, binChunk p 3] ".", hi, hn, hmask, ?_, ?_,
    rfl, ?_, ?_, by omega, by omega, by omega, by omega,
    byte_decimal_roundtrip _ h0, byte_decimal_roundtrip _ h1,
    byte_decimal_roundtrip _ h2, byte_decimal_roundtrip _ h3, hipre, by rw [hnl]; simp⟩
  · rw [hi2, string4_quad]
  · rw [hnl]; rfl
  · have := string4_not_mem m0 m1 m2 m3 '=' (by decide) (by decide)
    rwa [string4_quad] at this
  · have := string4_not_mem m0 m1 m2 m3 ' ' (by decide) (by decide)
    rwa [string4_quad] at this

/-- C18 at `172.16.0.0/16`: both reports print the netmask `255.255.0.0` and the
line `Prefix: /16`. -/
theorem netmask_text_agrees_witness :
    (172 < 256 ∧ 16 < 256 ∧ 0 < 256 ∧ 16 ≤ 32) ∧
    ∃ infoText maskText binary,
      getIPInfo (parsedCIDR4 [172, 16, 0, 0] 16).1 (parsedCIDR4 [172, 16, 0, 0] 16).2
        = Except.ok (some (CallToolResult.mk infoText), none) ∧
      getNetmask (parsedCIDR4 [172, 16, 0, 0] 16).2
        = Except.ok (some (CallToolResult.mk maskText), none) ∧
      (reportLines infoText)[2]? = some ("Netmask: " ++ "255.255.0.0") ∧
      (reportLines maskText)[1]? = some ("Netmask: " ++ "255.255.0.0" ++ " = " ++ binary) ∧
      ("Prefix: /" ++ fmtD 16) ∈ reportLines infoText ∧
      ("Prefix: /" ++ fmtD 16) ∈ reportLines maskText :=
  ⟨by decide,
    let ⟨infoText, maskText, m0, m1, m2, m3, binary, hi, hn, hm, h2, h1, _, _, _, _, _, _, _, _,
        _, _, _, p1, p2⟩ :=
      netmask_text_agrees 172 16 0 0 16
        (by decide) (by decide) (by decide) (by decide) (by decide)
    have e : [m0, m1, m2, m3] = [255, 255, 0, 0] := hm.symm.trans (by decide)
    have e0 : m0 = 255 := by injection e
    have e1 : m1 = 255 := by injection e with _ e; injection e
    have e2 : m2 = 0 := by injection e with _ e; injection e with _ e; injection e
    have e3 : m3 = 0 := by
      injection e with _ e; injection e with _ e; injection e with _ e; injection e
    ⟨infoText, maskText, binary, hi, hn,
      by rw [h2, e0, e1, e2, e3]; rfl, by rw [h1, e0, e1, e2, e3]; rfl, p1, p2⟩⟩

/-- C19: for every 16-byte network with the canonical 16-byte mask of a prefix
length `p`, whatever the address: when `p < 128` the sixth line of the report
of `getIPInfo` is `Usable Hosts: 0` (the host count stays at its zero value
because `bits` is not 32); when `p = 128` the report has the line
`Hosts/Net: 1` and contains no `Broadcast:`. -/
theorem info_ipv6_host_count (ip network : IP) (p : Nat)
    (hlen : network.length = 16) (hp : p ≤ 128) :
    IPMask.Size (CIDRMask p 128) = (p, 128) ∧ (CIDRMask p 128).length = 16 ∧
    ∃ text, getIPInfo ip { IP := network, Mask := CIDRMask p 128 }
        = Except.ok (some (CallToolResult.mk text), none) ∧
      (p < 128 → totalHosts p 128 = 0 ∧
        (reportLines text)[5]? = some "Usable Hosts: 0" ∧
        "Usable Hosts: 0" ∈ reportLines text) ∧
      (p = 128 → "Hosts/Net: 1" ∈ reportLines text ∧ ¬ contains text "Broadcast:") := by
  obtain ⟨hs, hl⟩ := Size_CIDRMask128 p hp
  have hnl : ∀ x : IP, '\n' ∉ (IP.String x).data :=
    fun x => IP_String_not_mem x '\n' (by decide) (by decide)
  have hB : ∀ x : IP, 'B' ∉ (IP.String x).data :=
    fun x => IP_String_not_mem x 'B' (by decide) (by decide)
  refine ⟨hs, hl, ?_⟩
  rcases Nat.lt_or_eq_of_le hp with hlt | rfl
  · obtain ⟨m0, m1, m2, m3, bc, h⟩ := getIPInfo_v6_lt ip network p hlen hlt
    have hlines := reportLines_unlines [
        "IP Address: " ++ IP.String ip,
        "Network: " ++ IP.String network ++ "/" ++ fmtD p,
        "Netmask: " ++ (fmtD m0 ++ "." ++ fmtD m1 ++ "." ++ fmtD m2 ++ "." ++ fmtD m3),
        "Broadcast: " ++ IP.String bc,
        "Prefix: /" ++ fmtD p,
        "Usable Hosts: 0"] (by
      intro l hmem
      simp only [List.mem_cons, List.mem_singleton, List.not_mem_nil, or_false] at hmem
      rcases hmem with rfl | rfl | rfl | rfl | rfl | rfl <;>
        simp [mem_data_append, fmtD_not_mem, hnl])
    refine ⟨_, h, fun _ => ⟨by simp [totalHosts], ?_, ?_⟩, fun e => absurd e (Nat.ne_of_lt hlt)⟩
    · rw [hlines]; rfl
    · rw [hlines]; simp
  · have h := getIPInfo_v6_128 ip network
    have hlines := reportLines_unlines [
        "IP Address: " ++ IP.String ip,
        "Network: " ++ IP.String network ++ "/" ++ fmtD 128,
        "Netmask: " ++ "255.255.255.255",
        "Prefix: /" ++ fmtD 128,
        "Hosts/Net: 1"] (by
      intro l hmem
      simp only [List.mem_cons, List.mem_singleton, List.not_mem_nil, or_false] at hmem
      rcases hmem with rfl | rfl | rfl | rfl | rfl <;>
        simp [mem_data_append, fmtD_not_mem, hnl])
    refine ⟨_, h, fun e => absurd e (Nat.lt_irrefl 128), fun _ => ⟨?_, ?_⟩⟩
    · rw [hlines]; simp
    · intro hc
      obtain ⟨l, hmem, hin⟩ := contains_some_line _ "Broadcast:" (by decide) hc
      rw [hlines] at hmem
      simp only [List.mem_cons, List.mem_singleton, List.not_mem_nil, or_false,
        List.cons_append, List.nil_append] at hmem
      rcases hmem with rfl | rfl | rfl | rfl | rfl | rfl <;>
        exact not_infix_of_not_mem _ _ 'B' (by decide)
          (by simp [mem_data_append, fmtD_not_mem, hB]) hin

/-- C19 at the network `2001:db8::/48`: `Usable Hosts: 0`. -/
theorem info_ipv6_host_count_witness :
    ([0x20, 0x01, 0x0d, 0xb8, 0, 0, 0, 0, 0, 0, 0, 0, 0, 0, 0, 0].length = 16 ∧ 48 ≤ 128) ∧
    ∃ text, getIPInfo [0x20, 0x01, 0x0d, 0xb8, 0, 0, 0, 0, 0, 0, 0, 0, 0, 0, 0, 5]
        { IP := [0x20, 0x01, 0x0d, 0xb8, 0, 0, 0, 0, 0, 0, 0, 0, 0, 0, 0, 0],
          Mask := CIDRMask 48 128 }
        = Except.ok (some (CallToolResult.mk text), none) ∧
      (reportLines text)[5]? = some "Usable Hosts: 0" :=
  ⟨by decide,
    let ⟨text, h, hlt, _⟩ := (info_ipv6_host_count
      [0x20, 0x01, 0x0d, 0xb8, 0, 0, 0, 0, 0, 0, 0, 0, 0, 0, 0, 5]
      [0x20, 0x01, 0x0d, 0xb8, 0, 0, 0, 0, 0, 0, 0, 0, 0, 0, 0, 0] 48
      (by decide) (by decide)).2.2
    ⟨text, h, (hlt (by decide)).2.1⟩⟩

end IPCalc
